import Mathlib

/-! # terraform-provider-sysdig: the container-definition patch pipeline and the HTTP client

A shallow embedding of `sysdig/data_source_sysdig_fargate_workload_agent.go`, of
`ErrorFromResponse` and `DeleteGroupMapping` in `sysdig/internal/client/v2/common`
and of the read function of `sysdig/resource_sysdig_secure_notification_channel_slack.go`,
and theorems about them.

Conventions of the embedding.

* A Go `[]byte` and a Go `string` holding a document are both a list of bytes
  (`Bytes`); the conversions `[]byte(s)` and `string(b)` are the identity.  A nil
  byte slice is the empty list: the program only converts byte slices to strings.
* A decoded JSON document (Go `interface{}` holding `nil`, `bool`, `float64`,
  `string`, `[]interface{}` or `map[string]interface{}`) is a `Json` tree.  A Go map
  with string keys is an association list with pairwise distinct keys, read by
  first match; the order of the list carries no meaning.
* A Go `(value, error)` result is a pair whose second component is `none` for a
  nil error.
* A call that may panic returns an `Outcome`: either it returns normally or it
  unwinds with a panic value.
* The libraries the file calls are not part of the repository.  The text layer of
  `encoding/json` (bytes to tree and back), the external patcher
  `cfnpatcher.Patch` and the repository function `terraformPreModifications`
  (defined in a file that is not part of this development) are parameters,
  collected in `Externals`.  The tree operations of `gabs` and the mapping between
  Go structs and JSON trees follow the documented behaviour of those libraries.
-/

set_option autoImplicit false
set_option maxRecDepth 8192

namespace Sysdig

/-! ## Go values -/

/-- A byte string: a Go byte slice or the contents of a Go string. -/
abbrev Bytes := List UInt8

/-- The bytes of an ASCII text. -/
def ascii (s : String) : Bytes := s.data.map (fun c => UInt8.ofNat c.toNat)

/-- A Go error value, identified with the text its `Error` method returns. -/
structure GoError where
  Error : String
  deriving DecidableEq

/-- The value carried by a panic, as seen by the type switch of a deferred
`recover`: a string, an error, or a value of any other type (never nil: since
Go 1.21 `recover` does not return nil while a panic is in progress). -/
inductive PanicValue where
  | str (s : String)
  | err (e : GoError)
  | other (v : Nat)
  deriving DecidableEq

/-- The result of running code that may panic. -/
inductive Outcome (α : Type) where
  | ret (a : α)
  | panic (v : PanicValue)
  deriving DecidableEq

deriving instance DecidableEq for Except

/-- A decoded JSON value.  Numbers are `float64` values, identified with their
IEEE-754 bit pattern; the program never inspects a number. -/
inductive Json where
  | null
  | bool (b : Bool)
  | num (bits : Nat)
  | str (s : String)
  | arr (xs : List Json)
  | obj (kvs : List (String × Json))

/-- A Go `map[string]interface{}`. -/
abbrev JObject := List (String × Json)

mutual
/-- Decidable equality of JSON trees. -/
def Json.decEq : (a b : Json) → Decidable (a = b)
  | .null, .null => isTrue rfl
  | .bool a, .bool b =>
    if h : a = b then isTrue (by rw [h]) else isFalse (by intro h'; cases h'; exact h rfl)
  | .num a, .num b =>
    if h : a = b then isTrue (by rw [h]) else isFalse (by intro h'; cases h'; exact h rfl)
  | .str a, .str b =>
    if h : a = b then isTrue (by rw [h]) else isFalse (by intro h'; cases h'; exact h rfl)
  | .arr a, .arr b =>
    match Json.decEqList a b with
    | isTrue h => isTrue (by rw [h])
    | isFalse h => isFalse (by intro h'; cases h'; exact h rfl)
  | .obj a, .obj b =>
    match Json.decEqFields a b with
    | isTrue h => isTrue (by rw [h])
    | isFalse h => isFalse (by intro h'; cases h'; exact h rfl)
  | .null, .bool _ | .null, .num _ | .null, .str _ | .null, .arr _ | .null, .obj _ =>
    isFalse (by intro h; cases h)
  | .bool _, .null | .bool _, .num _ | .bool _, .str _ | .bool _, .arr _ | .bool _, .obj _ =>
    isFalse (by intro h; cases h)
  | .num _, .null | .num _, .bool _ | .num _, .str _ | .num _, .arr _ | .num _, .obj _ =>
    isFalse (by intro h; cases h)
  | .str _, .null | .str _, .bool _ | .str _, .num _ | .str _, .arr _ | .str _, .obj _ =>
    isFalse (by intro h; cases h)
  | .arr _, .null | .arr _, .bool _ | .arr _, .num _ | .arr _, .str _ | .arr _, .obj _ =>
    isFalse (by intro h; cases h)
  | .obj _, .null | .obj _, .bool _ | .obj _, .num _ | .obj _, .str _ | .obj _, .arr _ =>
    isFalse (by intro h; cases h)
/-- Decidable equality of lists of JSON trees. -/
def Json.decEqList : (a b : List Json) → Decidable (a = b)
  | [], [] => isTrue rfl
  | [], _ :: _ => isFalse (by intro h; cases h)
  | _ :: _, [] => isFalse (by intro h; cases h)
  | x :: xs, y :: ys =>
    match Json.decEq x y, Json.decEqList xs ys with
    | isTrue h₁, isTrue h₂ => isTrue (by rw [h₁, h₂])
    | isFalse h, _ => isFalse (by intro h'; cases h'; exact h rfl)
    | _, isFalse h => isFalse (by intro h'; cases h'; exact h rfl)
/-- Decidable equality of JSON objects. -/
def Json.decEqFields : (a b : List (String × Json)) → Decidable (a = b)
  | [], [] => isTrue rfl
  | [], _ :: _ => isFalse (by intro h; cases h)
  | _ :: _, [] => isFalse (by intro h; cases h)
  | (k, x) :: xs, (l, y) :: ys =>
    if hk : k = l then
      match Json.decEq x y, Json.decEqFields xs ys with
      | isTrue h₁, isTrue h₂ => isTrue (by rw [hk, h₁, h₂])
      | isFalse h, _ => isFalse (by intro h'; cases h'; exact h rfl)
      | _, isFalse h => isFalse (by intro h'; cases h'; exact h rfl)
    else isFalse (by intro h'; cases h'; exact hk rfl)
end

instance : DecidableEq Json := Json.decEq

/-! ## Go maps with string keys -/

/-- The map index expression `m[k]` with its presence flag. -/
def mapGet {α : Type} (k : String) : List (String × α) → Option α
  | [] => none
  | (k', v) :: rest => if k' = k then some v else mapGet k rest

/-- The map assignment `m[k] = v`. -/
def mapSet {α : Type} (k : String) (v : α) : List (String × α) → List (String × α)
  | [] => [(k, v)]
  | (k', v') :: rest => if k' = k then (k, v) :: rest else (k', v') :: mapSet k v rest

/-! ## The parts of `gabs` the program uses

`gabs.Container` wraps a decoded JSON value.  A child container made by
`Children` shares the maps of its parent, so an edit of a child that is an object
is seen through the parent.  The operations below take the wrapped value and,
for the editing ones, return the value as seen through the parent afterwards.
They are stated for a path of one segment that is neither `*`, `-` nor an array
index, which is how the program calls them. -/

/-- The method `Container.Search(key)` followed by `Data()`, keeping whether the
path resolved (`none` is the nil container).  An array resolves only numeric
segments and the wildcard; a scalar resolves nothing. -/
def gabsSearch (key : String) : Json → Option Json
  | .obj kvs => mapGet key kvs
  | _ => none

/-- The error `gabs.ErrPathCollision`. -/
def gabsErrPathCollision : GoError := ⟨"encountered value collision whilst building path"⟩

/-- The error of `Set` on an array with a segment that is not an index. -/
def gabsErrNotIndex (key : String) : GoError :=
  ⟨"failed to resolve path segment \x270\x27: found array but segment value \x27" ++ key ++
    "\x27 could not be parsed into array index: strconv.Atoi: parsing \"" ++ key ++
    "\": invalid syntax"⟩

/-- The method `Container.Set(value, key)`.  On an object it assigns `m[key]`.
On a nil value it succeeds on a fresh map held by the wrapper alone, so the value
seen through the parent stays nil.  On an array the segment is not an index and
on a scalar the path collides. -/
def gabsSet (value : Json) (key : String) : Json → Except GoError Json
  | .obj kvs => .ok (.obj (mapSet key value kvs))
  | .null => .ok .null
  | .arr _ => .error (gabsErrNotIndex key)
  | _ => .error gabsErrPathCollision

/-- The method `Container.ArrayAppend(value, key)`: append to the array at `key`;
a missing or nil target becomes a one-element array, and a target of another
kind becomes the first element of a new array. -/
def gabsArrayAppend (value : Json) (key : String) (c : Json) : Except GoError Json :=
  match gabsSearch key c with
  | some (.arr xs) => gabsSet (.arr (xs ++ [value])) key c
  | some .null => gabsSet (.arr [value]) key c
  | none => gabsSet (.arr [value]) key c
  | some old => gabsSet (.arr [old, value]) key c

/-! ## External behaviour -/

/-- The struct `cfnpatcher.Configuration`; `RecipeConfig` holds a JSON document. -/
structure Configuration where
  Kilt : String
  ImageAuthSecret : String
  OptIn : Bool
  UseRepositoryHints : Bool
  RecipeConfig : Bytes
  deriving DecidableEq

/-- The behaviour of the code outside the file.
`jsonDecode` and `jsonEncode` are the text layer of `encoding/json`:
`json.Unmarshal` into an `interface{}` and `json.Marshal` of a decoded value.
`terraformPreModifications` and `Patch` may return a value and an error, or
panic. -/
structure Externals where
  jsonDecode : Bytes → Except GoError Json
  jsonEncode : Json → Except GoError Bytes
  terraformPreModifications : Bytes → Outcome (Bytes × Option GoError)
  Patch : Configuration → Bytes → Outcome (Bytes × Option GoError)

/-- The method `Container.Bytes()`: the marshalled value, or the text `null`
when marshalling fails. -/
def gabsBytes (ext : Externals) (j : Json) : Bytes :=
  match ext.jsonEncode j with
  | .ok b => b
  | .error _ => ascii "null"

/-! ## The post-patch editor -/

/-- The struct `patchOptions`. -/
structure patchOptions where
  BarePdigOnContainers : List String
  IgnoreContainers : List String
  LogConfiguration : JObject

/-- The function `contains`. -/
def contains (items : List String) (target : String) : Bool :=
  match items with
  | [] => false
  | item :: rest => if item = target then true else contains rest target

/-- The name of the dynamic type of a value, as a failed type assertion prints it. -/
def goTypeName : Option Json → String
  | none => "nil"
  | some .null => "nil"
  | some (.bool _) => "bool"
  | some (.num _) => "float64"
  | some (.str _) => "string"
  | some (.arr _) => "[]interface \x7b\x7d"
  | some (.obj _) => "map[string]interface \x7b\x7d"

/-- The single-value type assertion `m[key].(string)`: it panics with a
`runtime.TypeAssertionError`, which is an error, unless the value is a string. -/
def assertString (v : Option Json) : Outcome String :=
  match v with
  | some (.str s) => .ret s
  | _ => .panic (.err ⟨"interface conversion: interface \x7b\x7d is " ++ goTypeName v ++ ", not string"⟩)

/-- The value `&ecs.LogConfiguration{LogDriver: "awslogs", Options: ...}` as
`json.Marshal` renders it: the struct has no JSON tags, and its third field
`SecretOptions` is left nil.  The three assertions run in source order. -/
def awsLogConfig (logConfiguration : JObject) : Outcome Json :=
  match assertString (mapGet "group" logConfiguration) with
  | .panic v => .panic v
  | .ret group =>
    match assertString (mapGet "stream_prefix" logConfiguration) with
    | .panic v => .panic v
    | .ret stream =>
      match assertString (mapGet "region" logConfiguration) with
      | .panic v => .panic v
      | .ret region =>
        .ret (.obj [("LogDriver", .str "awslogs"),
          ("Options", .obj [("awslogs-group", .str group),
            ("awslogs-stream-prefix", .str stream),
            ("awslogs-region", .str region)]),
          ("SecretOptions", .null)])

/-- The map literal `envars` of the bare-pdig branch. -/
def envars : Json :=
  .obj [("Name", .str "__INSTRUMENTATION_WRAPPER"), ("Value", .str "/opt/draios/bin/pdig,-C,-t,-1")]

/-- The expression `container.Search("Name").Data().(string)` with its flag. -/
def containerName (container : Json) : Option String :=
  match gabsSearch "Name" container with
  | some (.str s) => some s
  | _ => none

/-- The entries of the `Environment` field of a container as `ArrayAppend` finds
them: the elements of a list, none for a missing or nil field, and a value of
another kind counts as one entry. -/
def envEntries (container : Json) : List Json :=
  match gabsSearch "Environment" container with
  | some (.arr xs) => xs
  | some .null => []
  | none => []
  | some old => [old]

/-- One iteration of the loop of `fargatePostKiltModifications`: the container
afterwards, or the error the function returns from inside the loop. -/
def editContainer (patchOpts : patchOptions) (container : Json) : Outcome (Except GoError Json) :=
  match containerName container with
  | none => .ret (.ok container)
  | some name =>
    if name = "SysdigInstrumentation" then
      if patchOpts.LogConfiguration.length ≠ 0 then
        match awsLogConfig patchOpts.LogConfiguration with
        | .panic v => .panic v
        | .ret cfg =>
          match gabsSet cfg "LogConfiguration" container with
          | .error err => .ret (.error ⟨"failed to set log configuration: " ++ err.Error⟩)
          | .ok c => .ret (.ok c)
      else .ret (.ok container)
    else
      if contains patchOpts.BarePdigOnContainers name
          && !contains patchOpts.IgnoreContainers name then
        match gabsArrayAppend envars "Environment" container with
        | .error err => .ret (.error ⟨"failed to extend environment variables: " ++ err.Error⟩)
        | .ok c => .ret (.ok c)
      else .ret (.ok container)

/-- The loop of `fargatePostKiltModifications` over the children, in order; it
stops at the first error or panic. -/
def editContainers (patchOpts : patchOptions) : List Json → Outcome (Except GoError (List Json))
  | [] => .ret (.ok [])
  | container :: rest =>
    match editContainer patchOpts container with
    | .panic v => .panic v
    | .ret (.error err) => .ret (.error err)
    | .ret (.ok c) =>
      match editContainers patchOpts rest with
      | .panic v => .panic v
      | .ret (.error err) => .ret (.error err)
      | .ret (.ok cs) => .ret (.ok (c :: cs))

/-- The loop applied to the parsed document.  `Children()` of an array are its
elements, of an object its values (visited here in key order of the list; Go
leaves the order open, and the iterations do not depend on one another), and
any other value has none. -/
def editDocument (patchOpts : patchOptions) : Json → Outcome (Except GoError Json)
  | .arr xs =>
    match editContainers patchOpts xs with
    | .panic v => .panic v
    | .ret (.error err) => .ret (.error err)
    | .ret (.ok ys) => .ret (.ok (.arr ys))
  | .obj kvs =>
    match editContainers patchOpts (kvs.map Prod.snd) with
    | .panic v => .panic v
    | .ret (.error err) => .ret (.error err)
    | .ret (.ok ys) => .ret (.ok (.obj ((kvs.map Prod.fst).zip ys)))
  | j => .ret (.ok j)

/-- The function `fargatePostKiltModifications`. -/
def fargatePostKiltModifications (ext : Externals) (patchedBytes : Bytes)
    (patchOpts : patchOptions) : Outcome (Bytes × Option GoError) :=
  if patchOpts.LogConfiguration.length = 0 ∧ patchOpts.BarePdigOnContainers.length = 0 then
    .ret (patchedBytes, none)
  else
    match ext.jsonDecode patchedBytes with
    | .error err =>
      .ret ([], some ⟨"failed to parse containers for post-processing: " ++ err.Error⟩)
    | .ok containers =>
      match editDocument patchOpts containers with
      | .panic v => .panic v
      | .ret (.error err) => .ret ([], some err)
      | .ret (.ok edited) => .ret (gabsBytes ext edited, none)

/-! ## The stack document -/

/-- The struct `cfnTag`. -/
structure cfnTag where
  Key : String
  Value : String
  deriving DecidableEq

/-- The struct `cfnProperties`.  A slice or map that may be nil is an `Option`. -/
structure cfnProperties where
  RequiresCompatibilities : Option (List String)
  ContainerDefinitions : Option (List (Option JObject))
  Tags : Option (List cfnTag)
  deriving DecidableEq

/-- The struct `cfnResource`; its field `ResourceType` has the JSON name `Type`. -/
structure cfnResource where
  ResourceType : String
  Properties : cfnProperties
  deriving DecidableEq

/-- The struct `cfnStack`. -/
structure cfnStack where
  Resources : Option (List (String × cfnResource))
  deriving DecidableEq

/-! ### `json.Marshal` on these types, up to the text layer -/

/-- A slice: `null` when nil, otherwise the array of its elements. -/
def sliceToJson {α : Type} (f : α → Json) : Option (List α) → Json
  | none => .null
  | some xs => .arr (xs.map f)

/-- A `map[string]interface{}`: `null` when nil, otherwise the object. -/
def mapToJson : Option JObject → Json
  | none => .null
  | some m => .obj m

/-- A `cfnTag` by its JSON tags. -/
def cfnTag.toJson (t : cfnTag) : Json :=
  .obj [("Key", .str t.Key), ("Value", .str t.Value)]

/-- A `cfnProperties` by its JSON tags, fields in declaration order. -/
def cfnProperties.toJson (p : cfnProperties) : Json :=
  .obj [("RequiresCompatibilities", sliceToJson Json.str p.RequiresCompatibilities),
    ("ContainerDefinitions", sliceToJson mapToJson p.ContainerDefinitions),
    ("Tags", sliceToJson cfnTag.toJson p.Tags)]

/-- A `cfnResource` by its JSON tags. -/
def cfnResource.toJson (r : cfnResource) : Json :=
  .obj [("Type", .str r.ResourceType), ("Properties", r.Properties.toJson)]

/-- The entries of the `Resources` map. -/
def resourcesToJson : List (String × cfnResource) → List (String × Json)
  | [] => []
  | (k, r) :: rest => (k, r.toJson) :: resourcesToJson rest

/-- A `cfnStack` by its JSON tags. -/
def cfnStack.toJson (s : cfnStack) : Json :=
  .obj [("Resources",
    match s.Resources with
    | none => .null
    | some rs => .obj (resourcesToJson rs))]

/-! ### `json.Unmarshal` into these types, up to the text layer

A JSON `null` leaves a string or a struct as it is and makes a slice or map
nil; a value of the wrong kind is an `UnmarshalTypeError`.  A struct takes the
keys that are spelled as its JSON tags (the case-insensitive fallback of
`encoding/json` is not modelled) and ignores the others.  Of several ill-typed
values the error reported is the one of the first field in declaration order;
the error text leaves out the field path. -/

/-- The kind of a JSON value, as `UnmarshalTypeError` names it. -/
def jsonKind : Json → String
  | .null => "null"
  | .bool _ => "bool"
  | .num _ => "number"
  | .str _ => "string"
  | .arr _ => "array"
  | .obj _ => "object"

/-- The error `json.UnmarshalTypeError`. -/
def unmarshalTypeError (j : Json) (goType : String) : GoError :=
  ⟨"json: cannot unmarshal " ++ jsonKind j ++ " into Go value of type " ++ goType⟩

/-- Decoding into a string that holds `cur`. -/
def decodeString (cur : String) : Json → Except GoError String
  | .null => .ok cur
  | .str s => .ok s
  | j => .error (unmarshalTypeError j "string")

/-- Decoding into a nil `map[string]interface{}`. -/
def decodeMap : Json → Except GoError (Option JObject)
  | .null => .ok none
  | .obj m => .ok (some m)
  | j => .error (unmarshalTypeError j "map[string]interface \x7b\x7d")

/-- Decoding the elements of an array, each into a fresh element. -/
def decodeElems {α : Type} (f : Json → Except GoError α) : List Json → Except GoError (List α)
  | [] => .ok []
  | x :: xs =>
    match f x with
    | .error e => .error e
    | .ok a =>
      match decodeElems f xs with
      | .error e => .error e
      | .ok as => .ok (a :: as)

/-- Decoding into a nil slice. -/
def decodeSlice {α : Type} (f : Json → Except GoError α) (goType : String) :
    Json → Except GoError (Option (List α))
  | .null => .ok none
  | .arr xs =>
    match decodeElems f xs with
    | .error e => .error e
    | .ok as => .ok (some as)
  | j => .error (unmarshalTypeError j goType)

/-- Decoding the field of a fresh struct: a missing key leaves the zero value. -/
def decodeField {α : Type} (zero : α) (f : Json → Except GoError α) (key : String)
    (kvs : JObject) : Except GoError α :=
  match mapGet key kvs with
  | none => .ok zero
  | some v => f v

/-- Decoding into a zero `cfnTag`. -/
def decodeTag : Json → Except GoError cfnTag
  | .null => .ok ⟨"", ""⟩
  | .obj kvs =>
    match decodeField "" (decodeString "") "Key" kvs with
    | .error e => .error e
    | .ok key =>
      match decodeField "" (decodeString "") "Value" kvs with
      | .error e => .error e
      | .ok value => .ok ⟨key, value⟩
  | j => .error (unmarshalTypeError j "sysdig.cfnTag")

/-- Decoding into a zero `cfnProperties`. -/
def decodeProperties : Json → Except GoError cfnProperties
  | .null => .ok ⟨none, none, none⟩
  | .obj kvs =>
    match decodeField none (decodeSlice (decodeString "") "[]string")
        "RequiresCompatibilities" kvs with
    | .error e => .error e
    | .ok compat =>
      match decodeField none (decodeSlice decodeMap "[]map[string]interface \x7b\x7d")
          "ContainerDefinitions" kvs with
      | .error e => .error e
      | .ok cdefs =>
        match decodeField none (decodeSlice decodeTag "[]sysdig.cfnTag") "Tags" kvs with
        | .error e => .error e
        | .ok tags => .ok ⟨compat, cdefs, tags⟩
  | j => .error (unmarshalTypeError j "sysdig.cfnProperties")

/-- Decoding into a zero `cfnResource`. -/
def decodeResource : Json → Except GoError cfnResource
  | .null => .ok ⟨"", ⟨none, none, none⟩⟩
  | .obj kvs =>
    match decodeField "" (decodeString "") "Type" kvs with
    | .error e => .error e
    | .ok ty =>
      match decodeField ⟨none, none, none⟩ decodeProperties "Properties" kvs with
      | .error e => .error e
      | .ok props => .ok ⟨ty, props⟩
  | j => .error (unmarshalTypeError j "sysdig.cfnResource")

/-- Decoding the entries of a JSON object into a map that holds `m`: each value
is decoded into a fresh `cfnResource` and assigned to its key. -/
def decodeResources (m : List (String × cfnResource)) :
    List (String × Json) → Except GoError (List (String × cfnResource))
  | [] => .ok m
  | (k, v) :: rest =>
    match decodeResource v with
    | .error e => .error e
    | .ok r => decodeResources (mapSet k r m) rest

/-- Decoding into a `cfnStack` that already holds `stack`: the map `Resources`
is kept and extended, unless the document sets it to `null`. -/
def decodeStack (stack : cfnStack) : Json → Except GoError cfnStack
  | .null => .ok stack
  | .obj kvs =>
    match mapGet "Resources" kvs with
    | none => .ok stack
    | some .null => .ok ⟨none⟩
    | some (.obj rs) =>
      match decodeResources (stack.Resources.getD []) rs with
      | .error e => .error e
      | .ok m => .ok ⟨some m⟩
    | some j => .error (unmarshalTypeError j "map[string]sysdig.cfnResource")
  | j => .error (unmarshalTypeError j "sysdig.cfnStack")

/-- The call `json.Unmarshal(data, &cdefs)` on a nil `[]map[string]interface{}`. -/
def jsonUnmarshalCdefs (ext : Externals) (data : Bytes) :
    Except GoError (Option (List (Option JObject))) :=
  match ext.jsonDecode data with
  | .error e => .error e
  | .ok j => decodeSlice decodeMap "[]map[string]interface \x7b\x7d" j

/-- The call `json.Unmarshal(data, &stack)`. -/
def jsonUnmarshalStack (ext : Externals) (data : Bytes) (stack : cfnStack) :
    Except GoError cfnStack :=
  match ext.jsonDecode data with
  | .error e => .error e
  | .ok j => decodeStack stack j

/-! ## `patchFargateTaskDefinition` -/

/-- The function `strings.Join`. -/
def stringsJoin (elems : List String) (sep : String) : String :=
  match elems with
  | [] => ""
  | first :: rest => rest.foldl (fun b s => b ++ sep ++ s) first

/-- The list `tags` built from the ignore list. -/
def kiltTags (patchOpts : patchOptions) : List cfnTag :=
  if patchOpts.IgnoreContainers.length > 0 then
    [] ++ [⟨"kilt-ignore-containers", stringsJoin patchOpts.IgnoreContainers ":"⟩]
  else []

/-- The value of the variable `stack` when it is first marshalled. -/
def assembleStack (cdefs : Option (List (Option JObject))) (patchOpts : patchOptions) :
    cfnStack :=
  ⟨some [("kilt", ⟨"AWS::ECS::TaskDefinition", ⟨some ["FARGATE"], cdefs, some (kiltTags patchOpts)⟩⟩)]⟩

/-- The map index `stack.Resources["kilt"]`: the zero resource when the map is
nil or has no such key. -/
def kiltResource (stack : cfnStack) : cfnResource :=
  match stack.Resources with
  | none => ⟨"", ⟨none, none, none⟩⟩
  | some rs => (mapGet "kilt" rs).getD ⟨"", ⟨none, none, none⟩⟩

/-- The error the deferred function stores for a recovered panic value. -/
def recoveredError : PanicValue → GoError
  | .str x => ⟨x⟩
  | .err x => x
  | .other _ => ⟨"unknown panic"⟩

/-- The statements of `patchFargateTaskDefinition` that follow the `defer`,
ending in its last `return`.  The result is the pair `(patched, err)`. -/
def patchGuarded (ext : Externals) (kiltConfig : Configuration) (patchOpts : patchOptions)
    (stack : cfnStack) (patchedStack : Bytes) : Outcome (Option Bytes × Option GoError) :=
  match ext.terraformPreModifications patchedStack with
  | .panic v => .panic v
  | .ret (patchedStack, _) =>
    match ext.Patch kiltConfig patchedStack with
    | .panic v => .panic v
    | .ret (_, some err) => .ret (none, some err)
    | .ret (patchedBytes, none) =>
      match jsonUnmarshalStack ext patchedBytes stack with
      | .error err => .ret (none, some err)
      | .ok stack =>
        match ext.jsonEncode
            (sliceToJson mapToJson (kiltResource stack).Properties.ContainerDefinitions) with
        | .error err => .ret (none, some err)
        | .ok patchedBytes =>
          match fargatePostKiltModifications ext patchedBytes patchOpts with
          | .panic v => .panic v
          | .ret (patchedBytes, _) => .ret (some patchedBytes, none)

/-- The function `patchFargateTaskDefinition`.  The deferred function turns a
panic of the guarded statements into the result `(nil, err)`. -/
def patchFargateTaskDefinition (ext : Externals) (containerDefinitions : Bytes)
    (kiltConfig : Configuration) (patchOpts : patchOptions) :
    Outcome (Option Bytes × Option GoError) :=
  match jsonUnmarshalCdefs ext containerDefinitions with
  | .error err => .ret (none, some err)
  | .ok cdefs =>
    match ext.jsonEncode (assembleStack cdefs patchOpts).toJson with
    | .error err => .ret (none, some err)
    | .ok patchedStack =>
      match patchGuarded ext kiltConfig patchOpts (assembleStack cdefs patchOpts) patchedStack with
      | .panic v => .ret (none, some (recoveredError v))
      | .ret r => .ret r

/-! ## A finite codec for examples -/

/-- A decoder that knows the documents of a table. -/
def tableDecode (table : List (Bytes × Json)) (b : Bytes) : Except GoError Json :=
  match table.find? (fun e => e.1 = b) with
  | some e => .ok e.2
  | none => .error ⟨"invalid character"⟩

/-- An encoder that knows the documents of a table. -/
def tableEncode (table : List (Bytes × Json)) (j : Json) : Except GoError Bytes :=
  match table.find? (fun e => e.2 = j) with
  | some e => .ok e.1
  | none => .error ⟨"json: unsupported value"⟩

/-- Externals whose JSON text layer is a table and whose patcher behaves as
given; `terraformPreModifications` returns its input. -/
def tableExternals (table : List (Bytes × Json))
    (patch : Configuration → Bytes → Outcome (Bytes × Option GoError)) : Externals :=
  ⟨tableDecode table, tableEncode table, fun b => .ret (b, none), patch⟩

/-! ## Example documents -/

/-- A patcher configuration. -/
def exampleConfig : Configuration := ⟨"", "", false, true, ascii "\x7b\x7d"⟩

/-- The container list of `appText`. -/
def appList : List Json := [.obj [("Name", .str "app")]]

/-- The text `[{"Name":"app"}]`. -/
def appText : Bytes := ascii "[\x7b\"Name\":\"app\"\x7d]"

/-- The text `[ {"Name":"app"} ]`, the same list with blanks. -/
def appSpacedText : Bytes := ascii "[ \x7b\"Name\":\"app\"\x7d ]"

/-- Options that select the container `app` for the bare-pdig override. -/
def appOpts : patchOptions := ⟨["app"], [], []⟩

/-- The stack assembled for `appList` and `appOpts`, as a JSON tree. -/
def appStackJson : Json := (assembleStack (some [some [("Name", .str "app")]]) appOpts).toJson

/-- The text of `appStackJson`. -/
def appStackText : Bytes :=
  ascii ("\x7b\"Resources\":\x7b\"kilt\":\x7b\"Type\":\"AWS::ECS::TaskDefinition\"," ++
    "\"Properties\":\x7b\"RequiresCompatibilities\":[\"FARGATE\"]," ++
    "\"ContainerDefinitions\":[\x7b\"Name\":\"app\"\x7d],\"Tags\":[]\x7d\x7d\x7d\x7d")

/-- The list `appList` after the bare-pdig override. -/
def appOutList : List Json :=
  [.obj [("Name", .str "app"), ("Environment", .arr [envars])]]

/-- The text of `appOutList`, keys in the sorted order of `json.Marshal`. -/
def appOutText : Bytes :=
  ascii ("[\x7b\"Environment\":[\x7b\"Name\":\"__INSTRUMENTATION_WRAPPER\"," ++
    "\"Value\":\"/opt/draios/bin/pdig,-C,-t,-1\"\x7d],\"Name\":\"app\"\x7d]")

/-- A text layer that knows the documents of the `app` example; the patcher
returns the stack it is given. -/
def appExt : Externals :=
  tableExternals [(appText, .arr appList), (appStackText, appStackJson),
    (appOutText, .arr appOutList)] (fun _ b => .ret (b, none))

/-- As `appExt`, with a patcher that panics with the string `boom`. -/
def boomExt : Externals :=
  tableExternals [(appText, .arr appList), (appStackText, appStackJson),
    (appOutText, .arr appOutList)] (fun _ _ => .panic (.str "boom"))

/-- A text layer whose decoder rejects the compact text `appText` that its
encoder writes for `appList`; it reads the list from `appSpacedText`. -/
def narrowExt : Externals :=
  ⟨tableDecode [(appSpacedText, .arr appList), (appStackText, appStackJson)],
    tableEncode [(appStackText, appStackJson), (appText, .arr appList)],
    fun b => .ret (b, none), fun _ b => .ret (b, none)⟩

/-- The list of the scenario: a workload container, a container with a
lowercase `name` key only, and the sidecar. -/
def scenarioList : List Json :=
  [.obj [("Name", .str "app")], .obj [("name", .str "aux")],
    .obj [("Name", .str "SysdigInstrumentation")]]

/-- The text `[{"Name":"app"},{"name":"aux"},{"Name":"SysdigInstrumentation"}]`. -/
def scenarioText : Bytes :=
  ascii ("[\x7b\"Name\":\"app\"\x7d,\x7b\"name\":\"aux\"\x7d," ++
    "\x7b\"Name\":\"SysdigInstrumentation\"\x7d]")

/-- The options of the scenario. -/
def scenarioOpts : patchOptions :=
  ⟨["app"], [], [("group", .str "g"), ("stream_prefix", .str "p"), ("region", .str "r")]⟩

/-- The list of the scenario after post-processing. -/
def scenarioOutList : List Json :=
  [.obj [("Name", .str "app"), ("Environment", .arr [envars])],
    .obj [("name", .str "aux")],
    .obj [("Name", .str "SysdigInstrumentation"),
      ("LogConfiguration", .obj [("LogDriver", .str "awslogs"),
        ("Options", .obj [("awslogs-group", .str "g"), ("awslogs-stream-prefix", .str "p"),
          ("awslogs-region", .str "r")]),
        ("SecretOptions", .null)])]]

/-- The text of `scenarioOutList`, keys in the sorted order of `json.Marshal`. -/
def scenarioOutText : Bytes :=
  ascii ("[\x7b\"Environment\":[\x7b\"Name\":\"__INSTRUMENTATION_WRAPPER\"," ++
    "\"Value\":\"/opt/draios/bin/pdig,-C,-t,-1\"\x7d],\"Name\":\"app\"\x7d," ++
    "\x7b\"name\":\"aux\"\x7d," ++
    "\x7b\"LogConfiguration\":\x7b\"LogDriver\":\"awslogs\",\"Options\":\x7b" ++
    "\"awslogs-group\":\"g\",\"awslogs-region\":\"r\",\"awslogs-stream-prefix\":\"p\"\x7d," ++
    "\"SecretOptions\":null\x7d,\"Name\":\"SysdigInstrumentation\"\x7d]")

/-- A text layer that knows the documents of the scenario. -/
def scenarioExt : Externals :=
  tableExternals [(scenarioText, .arr scenarioList), (scenarioOutText, .arr scenarioOutList)]
    (fun _ b => .ret (b, none))

/-- The list with the sidecar alone. -/
def sidecarList : List Json := [.obj [("Name", .str "SysdigInstrumentation")]]

/-- The text `[{"Name":"SysdigInstrumentation"}]`. -/
def sidecarText : Bytes := ascii "[\x7b\"Name\":\"SysdigInstrumentation\"\x7d]"

/-- A text layer that knows the sidecar list. -/
def sidecarExt : Externals :=
  tableExternals [(sidecarText, .arr sidecarList)] (fun _ b => .ret (b, none))

/-- Options that name the sidecar for the bare-pdig override. -/
def sidecarBareOpts : patchOptions := ⟨["SysdigInstrumentation"], [], []⟩

/-- Options whose log configuration has a `group` only. -/
def groupOnlyOpts : patchOptions := ⟨[], [], [("group", .str "g")]⟩

/-- The list `appOutList` after a second bare-pdig override. -/
def appTwiceList : List Json :=
  [.obj [("Name", .str "app"), ("Environment", .arr [envars, envars])]]

/-- The text of `appTwiceList`, keys in the sorted order of `json.Marshal`. -/
def appTwiceText : Bytes :=
  ascii ("[\x7b\"Environment\":[\x7b\"Name\":\"__INSTRUMENTATION_WRAPPER\"," ++
    "\"Value\":\"/opt/draios/bin/pdig,-C,-t,-1\"\x7d,\x7b\"Name\":\"__INSTRUMENTATION_WRAPPER\"," ++
    "\"Value\":\"/opt/draios/bin/pdig,-C,-t,-1\"\x7d],\"Name\":\"app\"\x7d]")

/-- A text layer that knows the `app` list before and after one and two
overrides. -/
def twiceExt : Externals :=
  tableExternals [(appText, .arr appList), (appOutText, .arr appOutList),
    (appTwiceText, .arr appTwiceList)] (fun _ b => .ret (b, none))

/-! ## The HTTP client: `ErrorFromResponse` and `DeleteGroupMapping`

The file `sysdig/internal/client/v2/common/client.go` reads the body of a
response with `json.NewDecoder(...).Decode`, queries it with the fixed JMESPath
expression `[message, errors[].[reason, message]][][] | join(', ', @)` and
converts the result with `cast`.  The decoder and the float formatting of `cast`
are parameters; the JMESPath expression is evaluated as `go-jmespath` does,
node by node. -/

/-- The fields of `http.Response` that the client reads; `Body` is the whole
body. -/
structure Response where
  Status : String
  StatusCode : Int
  Body : Bytes
  deriving DecidableEq

/-- Library behaviour used by the HTTP client: `json.NewDecoder(body).Decode`,
which reads the first JSON value of the body, and `strconv.FormatFloat` as
`cast.ToString` calls it on a `float64`. -/
structure HttpExternals where
  Decode : Bytes → Except GoError Json
  FormatFloat : Nat → String

/-- A JMESPath field `key`: the value of the key in an object (nil when missing),
nil on any other value. -/
def jpField (key : String) : Json → Json
  | .obj kvs => (mapGet key kvs).getD .null
  | _ => .null

/-- The elements of a flattened list: an element that is a list is replaced by
its elements, any other element is kept. -/
def jpFlattenElems : List Json → List Json
  | [] => []
  | .arr ys :: rest => ys ++ jpFlattenElems rest
  | y :: rest => y :: jpFlattenElems rest

/-- The JMESPath node `Flatten`: nil unless the value is a list. -/
def jpFlatten : Json → Json
  | .arr xs => .arr (jpFlattenElems xs)
  | _ => .null

/-- The elements of a projection: the results that are not nil, in order. -/
def jpProjectElems (f : Json → Json) : List Json → List Json
  | [] => []
  | x :: rest =>
    match f x with
    | .null => jpProjectElems f rest
    | y => y :: jpProjectElems f rest

/-- The JMESPath node `Projection` with right-hand side `f`: nil unless the
value is a list. -/
def jpProject (f : Json → Json) : Json → Json
  | .arr xs => .arr (jpProjectElems f xs)
  | _ => .null

/-- The multi-select list `[reason, message]`: nil on nil. -/
def jpReasonMessage : Json → Json
  | .null => .null
  | e => .arr [jpField "reason" e, jpField "message" e]

/-- The multi-select list `[message, errors[].[reason, message]]`: nil on nil. -/
def jpSelect : Json → Json
  | .null => .null
  | data =>
    .arr [jpField "message" data, jpProject jpReasonMessage (jpFlatten (jpField "errors" data))]

/-- The strings of a list whose elements are all strings. -/
def jpStrings : List Json → Option (List String)
  | [] => some []
  | .str s :: rest =>
    match jpStrings rest with
    | some ss => some (s :: ss)
    | none => none
  | _ :: _ => none

/-- The JMESPath function `join(sep, @)`: a type error unless the value is a
list of strings (the error text is shortened). -/
def jpJoin (sep : String) : Json → Except GoError Json
  | .arr xs =>
    match jpStrings xs with
    | some ss => .ok (.str (stringsJoin ss sep))
    | none => .error ⟨"Invalid type for join"⟩
  | _ => .error ⟨"Invalid type for join"⟩

/-- The call `jmespath.Search` with the expression of `ErrorFromResponse`: two
flatten projections with the identity on the right, piped into `join`. -/
def jmespathSearch (data : Json) : Except GoError Json :=
  jpJoin ", " (jpProject id (jpFlatten (jpProject id (jpFlatten (jpSelect data)))))

/-- The function `cast.ToString`: the empty string for a value it cannot
convert. -/
def castToString (lib : HttpExternals) : Json → String
  | .str s => s
  | .null => ""
  | .bool true => "true"
  | .bool false => "false"
  | .num bits => lib.FormatFloat bits
  | .arr _ => ""
  | .obj _ => ""

/-- The function `cast.ToStringSlice` on a `[]interface{}`. -/
def castToStringSlice (lib : HttpExternals) (xs : List Json) : List String :=
  xs.map (castToString lib)

/-- The method `ErrorFromResponse`; the error it returns is never nil. -/
def ErrorFromResponse (lib : HttpExternals) (response : Response) : GoError :=
  match lib.Decode response.Body with
  | .error _ => ⟨response.Status⟩
  | .ok data =>
    match jmespathSearch data with
    | .error _ => ⟨response.Status⟩
    | .ok (.arr searchArray) => ⟨stringsJoin (castToStringSlice lib searchArray) ", "⟩
    | .ok search => ⟨castToString lib search⟩

/-- The struct `client` as far as the group-mapping calls use it.  The field
`DoSysdigRequest` stands for the method of that name on a method and a URL: the
outcome of the HTTP exchange, a response when the error is nil. -/
structure Client where
  URL : String
  DoSysdigRequest : String → String → Except GoError Response

/-- The method `DeleteGroupMappingUrl`. -/
def DeleteGroupMappingUrl (client : Client) (id : Int) : String :=
  client.URL ++ "/api/groupmappings/" ++ toString id

/-- The method `DeleteGroupMapping`. -/
def DeleteGroupMapping (lib : HttpExternals) (client : Client) (id : Int) : Option GoError :=
  match client.DoSysdigRequest "DELETE" (DeleteGroupMappingUrl client id) with
  | .error err => some err
  | .ok response =>
    if response.StatusCode ≠ 204 ∧ response.StatusCode ≠ 200 ∧ response.StatusCode ≠ 404 then
      some (ErrorFromResponse lib response)
    else none

/-! ## Resource data and diagnostics of the provider framework -/

/-- The severity of a diagnostic. -/
inductive DiagSeverity where
  | Error
  | Warning
  deriving DecidableEq

/-- The struct `diag.Diagnostic` as far as the helpers fill it. -/
structure Diagnostic where
  Severity : DiagSeverity
  Summary : String
  Detail : String
  deriving DecidableEq

/-- The type `diag.Diagnostics`; the nil value is the empty list. -/
abbrev Diagnostics := List Diagnostic

/-- The function `diag.FromErr`. -/
def diagFromErr : Option GoError → Diagnostics
  | none => []
  | some err => [⟨.Error, err.Error, ""⟩]

/-- The function `diag.Errorf`, applied to the formatted text. -/
def diagErrorf (summary : String) : Diagnostics := [⟨.Error, summary, ""⟩]

/-- A `schema.ResourceData`: the id and the attributes, set by `d.Set`, which
always succeeds here. -/
structure ResourceData where
  Id : String
  attrs : JObject
  deriving DecidableEq

/-- The value of a string of decimal digits, `none` when the string is empty or
has another character. -/
def parseDigits (cs : List Char) : Option Nat :=
  if cs = [] then none
  else cs.foldl (fun acc c =>
    match acc with
    | none => none
    | some n => if 48 ≤ c.toNat ∧ c.toNat ≤ 57 then some (10 * n + (c.toNat - 48)) else none)
    (some 0)

/-- The error of `strconv.Atoi` (the input is quoted plainly). -/
def atoiError (s : String) (what : String) : GoError :=
  ⟨"strconv.Atoi: parsing \"" ++ s ++ "\": " ++ what⟩

/-- The function `strconv.Atoi` for a 64-bit `int`: an optional sign, then
decimal digits. -/
def strconvAtoi (s : String) : Except GoError Int :=
  let (neg, digits) :=
    match s.data with
    | c :: rest => if c = '-' then (true, rest) else if c = '+' then (false, rest) else (false, c :: rest)
    | [] => (false, [])
  match parseDigits digits with
  | none => .error (atoiError s "invalid syntax")
  | some n =>
    if neg then
      if n ≤ 2 ^ 63 then .ok (-(n : Int)) else .error (atoiError s "value out of range")
    else
      if n < 2 ^ 63 then .ok (n : Int) else .error (atoiError s "value out of range")

/-! ## The Slack notification channel resource

The package `v2` with `NotificationChannel`, its client and the sentinel
`NotificationChannelNotFound`, the helper `getSecureNotificationChannelClient`,
the shared `secureNotificationChannelToResourceData` and the template key
constants are declared in files that are not part of this development; the
structures below have the fields that the Slack resource reads and writes, and
the functions and constants are parameters. -/

/-- The struct `v2.NotificationChannelTemplateConfigurationSection`. -/
structure NotificationChannelTemplateConfigurationSection where
  SectionName : String
  ShouldShow : Bool
  deriving DecidableEq

/-- The struct `v2.NotificationChannelTemplateConfiguration`. -/
structure NotificationChannelTemplateConfiguration where
  TemplateKey : String
  TemplateConfigurationSections : List NotificationChannelTemplateConfigurationSection
  deriving DecidableEq

/-- The struct `v2.NotificationChannelOptions`. -/
structure NotificationChannelOptions where
  Url : String
  Channel : String
  PrivateChannel : Bool
  TemplateConfiguration : List NotificationChannelTemplateConfiguration
  deriving DecidableEq

/-- The struct `v2.NotificationChannel`; `ChannelType` is its field `Type`. -/
structure NotificationChannel where
  ID : Int
  Version : Int
  ChannelType : String
  Options : NotificationChannelOptions
  deriving DecidableEq

/-- A non-nil error returned by the notification channel client: the sentinel
`v2.NotificationChannelNotFound`, which the resource compares by identity, or
any other error value. -/
inductive FetchError where
  | NotificationChannelNotFound
  | other (err : GoError)
  deriving DecidableEq

/-- The client returned by `getSecureNotificationChannelClient`. -/
structure NotificationChannelClient where
  GetNotificationChannelById : Int → Except FetchError NotificationChannel

/-- The code around the Slack resource. -/
structure SlackExternals where
  getSecureNotificationChannelClient : Except GoError NotificationChannelClient
  secureNotificationChannelToResourceData :
    NotificationChannel → ResourceData → ResourceData × Option GoError
  NOTIFICATION_CHANNEL_TYPE_SLACK_TEMPLATE_KEY_V2 : String

/-- The method `d.Set(key, value)`. -/
def ResourceData.Set (d : ResourceData) (key : String) (value : Json) : ResourceData :=
  ⟨d.Id, mapSet key value d.attrs⟩

/-- The function `getTemplateVersionFromNotificationChannelSlack`. -/
def getTemplateVersionFromNotificationChannelSlack (env : SlackExternals)
    (nc : NotificationChannel) (d : ResourceData) : ResourceData × Option GoError :=
  match nc.Options.TemplateConfiguration with
  | [] => (d, none)
  | [cfg] =>
    if cfg.TemplateKey = env.NOTIFICATION_CHANNEL_TYPE_SLACK_TEMPLATE_KEY_V2 then
      (d.Set "template_version" (.str "v2"), none)
    else (d.Set "template_version" (.str "v1"), none)
  | cfgs =>
    (d, some ⟨"expected slack notification templates to have only one configuration, found " ++
      toString cfgs.length⟩)

/-- The function `secureNotificationChannelSlackToResourceData`. -/
def secureNotificationChannelSlackToResourceData (env : SlackExternals)
    (nc : NotificationChannel) (d : ResourceData) : ResourceData × Option GoError :=
  match env.secureNotificationChannelToResourceData nc d with
  | (d₁, some err) => (d₁, some err)
  | (d₁, none) =>
    getTemplateVersionFromNotificationChannelSlack env nc
      (((d₁.Set "url" (.str nc.Options.Url)).Set "channel" (.str nc.Options.Channel)).Set
        "private_channel" (.bool nc.Options.PrivateChannel))

/-- The function `resourceSysdigSecureNotificationChannelSlackRead`: the
resource data afterwards and the diagnostics returned. -/
def resourceSysdigSecureNotificationChannelSlackRead (env : SlackExternals)
    (d : ResourceData) : ResourceData × Diagnostics :=
  match env.getSecureNotificationChannelClient with
  | .error err => (d, diagFromErr (some err))
  | .ok client =>
    match strconvAtoi d.Id with
    | .error err => (d, diagFromErr (some err))
    | .ok id =>
      match client.GetNotificationChannelById id with
      | .error .NotificationChannelNotFound => (⟨"", d.attrs⟩, [])
      | .error (.other err) => (d, diagFromErr (some err))
      | .ok nc =>
        match secureNotificationChannelSlackToResourceData env nc d with
        | (d₁, some err) => (d₁, diagFromErr (some err))
        | (d₁, none) => (d₁, [])

/-! ## The data source `dataSourceSysdigFargateWorkloadAgentRead` -/

/-- The constant `agentinoKiltDefinition`. -/
def agentinoKiltDefinition : String :=
    "build \x7b\n" ++
    "    entry_point: [\"/opt/draios/bin/instrument\"]\n" ++
    "    command: $\x7b?original.entry_point\x7d $\x7b?original.command\x7d\n" ++
    "    environment_variables: \x7b\n" ++
    "        \"SYSDIG_ORCHESTRATOR\": $\x7bconfig.orchestrator_host\x7d\n" ++
    "        \"SYSDIG_ORCHESTRATOR_PORT\": $\x7bconfig.orchestrator_port\x7d\n" ++
    "        \"SYSDIG_COLLECTOR\": $\x7bconfig.collector_host\x7d\n" ++
    "        \"SYSDIG_COLLECTOR_PORT\": $\x7bconfig.collector_port\x7d\n" ++
    "        \"SYSDIG_ACCESS_KEY\": $\x7bconfig.sysdig_access_key\x7d\n" ++
    "        \"SYSDIG_LOGGING\": $\x7bconfig.sysdig_logging\x7d\n" ++
    "    \x7d\n" ++
    "    mount: [\n" ++
    "        \x7b\n" ++
    "            name: \"SysdigInstrumentation\"\n" ++
    "            image: $\x7bconfig.agent_image\x7d\n" ++
    "            volumes: [\"/opt/draios\"]\n" ++
    "            entry_point: [\"/opt/draios/bin/logwriter\"]\n" ++
    "        \x7d\n" ++
    "    ]\n" ++
    "\x7d"

/-- The struct `KiltRecipeConfig`. -/
structure KiltRecipeConfig where
  SysdigAccessKey : String
  AgentImage : String
  OrchestratorHost : String
  OrchestratorPort : String
  CollectorHost : String
  CollectorPort : String
  SysdigLogging : String
  deriving DecidableEq

/-- A `KiltRecipeConfig` by its JSON tags, fields in declaration order. -/
def KiltRecipeConfig.toJson (c : KiltRecipeConfig) : Json :=
  .obj [("sysdig_access_key", .str c.SysdigAccessKey), ("agent_image", .str c.AgentImage),
    ("orchestrator_host", .str c.OrchestratorHost), ("orchestrator_port", .str c.OrchestratorPort),
    ("collector_host", .str c.CollectorHost), ("collector_port", .str c.CollectorPort),
    ("sysdig_logging", .str c.SysdigLogging)]

/-- The resource data of the data source, typed by its schema: the string
attributes, the two lists as `d.Get` returns them (a `[]interface{}`, possibly
nil), the elements of the set `log_configuration`, the computed output and the
id. -/
structure FargateResourceData where
  container_definitions : Bytes
  sysdig_access_key : String
  workload_agent_image : String
  image_auth_secret : String
  orchestrator_host : String
  orchestrator_port : String
  collector_host : String
  collector_port : String
  ignore_containers : Option (List Json)
  bare_pdig_on_containers : Option (List Json)
  log_configuration : List JObject
  sysdig_logging : String
  output_container_definitions : Bytes
  Id : String

/-- The function `unicode.IsSpace`. -/
def unicodeIsSpace (c : Char) : Bool :=
  let n := c.toNat
  (9 ≤ n && n ≤ 13) || n = 32 || n = 0x85 || n = 0xA0 || n = 0x1680 ||
    (0x2000 ≤ n && n ≤ 0x200a) || n = 0x2028 || n = 0x2029 || n = 0x202f || n = 0x205f ||
    n = 0x3000

/-- The function `strings.TrimSpace`. -/
def stringsTrimSpace (s : String) : String :=
  ⟨((s.data.dropWhile unicodeIsSpace).reverse.dropWhile unicodeIsSpace).reverse⟩

/-- The loops of `newPatchOptions`: the items that are strings, trimmed, in
order. -/
def trimmedItems : List Json → List String
  | [] => []
  | .str itemStr :: rest => stringsTrimSpace itemStr :: trimmedItems rest
  | _ :: rest => trimmedItems rest

/-- The function `newPatchOptions`. -/
def newPatchOptions (d : FargateResourceData) : patchOptions :=
  ⟨match d.bare_pdig_on_containers with
    | none => []
    | some items => [] ++ trimmedItems items,
   match d.ignore_containers with
    | none => []
    | some items => [] ++ trimmedItems items,
   match d.log_configuration with
    | [] => []
    | first :: _ => first⟩

/-- A lowercase hexadecimal digit. -/
def hexDigit (n : Nat) : Char :=
  if n < 10 then Char.ofNat (48 + n) else Char.ofNat (87 + n)

/-- The call `fmt.Sprintf("%x", sum)` on a byte array. -/
def sprintfHex (sum : List UInt8) : String :=
  ⟨sum.flatMap (fun b => [hexDigit (b.toNat / 16), hexDigit (b.toNat % 16)])⟩

/-- The panic of dereferencing a nil pointer, a runtime error. -/
def nilDereference : PanicValue :=
  .err ⟨"runtime error: invalid memory address or nil pointer dereference"⟩

/-- The function `dataSourceSysdigFargateWorkloadAgentRead`, with `sha256.Sum256`
as a parameter: the resource data afterwards and the diagnostics returned. -/
def dataSourceSysdigFargateWorkloadAgentRead (ext : Externals) (Sum256 : Bytes → List UInt8)
    (d : FargateResourceData) : Outcome (FargateResourceData × Diagnostics) :=
  let recipeConfig : KiltRecipeConfig :=
    ⟨d.sysdig_access_key, d.workload_agent_image, d.orchestrator_host, d.orchestrator_port,
      d.collector_host, d.collector_port, d.sysdig_logging⟩
  match ext.jsonEncode recipeConfig.toJson with
  | .error err => .ret (d, diagErrorf ("Failed to serialize configuration: " ++ err.Error))
  | .ok jsonConf =>
    let kiltConfig : Configuration :=
      ⟨agentinoKiltDefinition, d.image_auth_secret, false, true, jsonConf⟩
    let containerDefinitions := d.container_definitions
    let patchOpts := newPatchOptions d
    match patchFargateTaskDefinition ext containerDefinitions kiltConfig patchOpts with
    | .panic v => .panic v
    | .ret (_, some err) =>
      .ret (d, diagErrorf ("Error applying configuration patch: " ++ err.Error))
    | .ret (none, none) => .panic nilDereference
    | .ret (some outputContainerDefinitions, none) =>
      .ret (⟨d.container_definitions, d.sysdig_access_key, d.workload_agent_image,
        d.image_auth_secret, d.orchestrator_host, d.orchestrator_port, d.collector_host,
        d.collector_port, d.ignore_containers, d.bare_pdig_on_containers, d.log_configuration,
        d.sysdig_logging, outputContainerDefinitions,
        sprintfHex (Sum256 containerDefinitions)⟩, [])

/-! ## Example responses and resource data -/

/-- The text of the empty JSON object. -/
def emptyObjectText : Bytes := ascii "\x7b\x7d"

/-- A decoder that knows the empty object and one error body; floats are not
formatted in the examples. -/
def exampleHttp : HttpExternals :=
  ⟨tableDecode [(emptyObjectText, .obj []),
    (ascii "body", .obj [("message", .str "m"),
      ("errors", .arr [.obj [("reason", .str "r1"), ("message", .str "m1")]])])],
    fun _ => "0"⟩

/-- A response with status 404 and the empty object as body. -/
def notFoundResponse : Response := ⟨"404 Not Found", 404, emptyObjectText⟩

/-- A response with status 500 and the empty object as body. -/
def serverErrorResponse : Response := ⟨"500 Internal Server Error", 500, emptyObjectText⟩

/-- A client whose every request is answered by the given response. -/
def fixedClient (response : Response) : Client := ⟨"https://host", fun _ _ => .ok response⟩

/-- Resource data of a Slack channel with id `42`. -/
def slackData : ResourceData := ⟨"42", [("url", .str "https://hooks")]⟩

/-- The code around the Slack resource when the channel lookup returns the
given result. -/
def slackEnv (result : Except FetchError NotificationChannel) : SlackExternals :=
  ⟨.ok ⟨fun _ => result⟩, fun _ d => (d, none), "SLACK_V2"⟩

/-- The recipe configuration of `readData`, as a JSON tree. -/
def readRecipeJson : Json := (KiltRecipeConfig.mk "" "img" "" "" "" "" "").toJson

/-- The text of `readRecipeJson`. -/
def readRecipeText : Bytes :=
  ascii ("\x7b\"sysdig_access_key\":\"\",\"agent_image\":\"img\",\"orchestrator_host\":\"\"," ++
    "\"orchestrator_port\":\"\",\"collector_host\":\"\",\"collector_port\":\"\"," ++
    "\"sysdig_logging\":\"\"\x7d")

/-- A text layer that knows the documents of the `app` example and the recipe
configuration; the patcher returns the stack it is given. -/
def readExt : Externals :=
  tableExternals [(readRecipeText, readRecipeJson), (appText, .arr appList),
    (appStackText, appStackJson), (appOutText, .arr appOutList)] (fun _ b => .ret (b, none))

/-- A stand-in for `sha256.Sum256` in the examples: two bytes made of the
length of the input. -/
def exampleSum (b : Bytes) : List UInt8 := [UInt8.ofNat b.length, 171]

/-- Resource data with the container `app`, selected for the bare-pdig
override with blanks around its name. -/
def readData : FargateResourceData :=
  ⟨appText, "", "img", "", "", "", "", "", some [], some [.str " app "], [], "", [], ""⟩

/-- The same container definitions with no bare-pdig list. -/
def readDataPlain : FargateResourceData :=
  ⟨appText, "", "img", "", "", "", "", "", some [], none, [], "", [], ""⟩

/-! # Theorems -/

/-! ## Lemmas on maps and on the `gabs` operations -/

theorem mapGet_mapSet_same {α : Type} (k : String) (v : α) (m : List (String × α)) :
    mapGet k (mapSet k v m) = some v := by
  induction m with
  | nil => simp [mapSet, mapGet]
  | cons e rest ih =>
    obtain ⟨k', v'⟩ := e
    by_cases h : k' = k
    · simp [mapSet, mapGet, h]
    · simp [mapSet, mapGet, h, ih]

theorem mapGet_mapSet_ne {α : Type} (k k' : String) (v : α) (m : List (String × α))
    (h : k' ≠ k) : mapGet k' (mapSet k v m) = mapGet k' m := by
  induction m with
  | nil => simp [mapSet, mapGet, Ne.symm h]
  | cons e rest ih =>
    obtain ⟨k₀, v₀⟩ := e
    by_cases h₀ : k₀ = k
    · subst h₀
      simp [mapSet, mapGet, Ne.symm h]
    · by_cases h₁ : k₀ = k'
      · subst h₁
        simp [mapSet, mapGet, h₀]
      · simp [mapSet, mapGet, h₀, h₁, ih]

theorem containerName_some {c : Json} {n : String} (h : containerName c = some n) :
    ∃ kvs, c = .obj kvs ∧ mapGet "Name" kvs = some (.str n) := by
  cases c with
  | obj kvs =>
    refine ⟨kvs, rfl, ?_⟩
    simp only [containerName, gabsSearch] at h
    cases hg : mapGet "Name" kvs with
    | none => simp [hg] at h
    | some v =>
      cases v <;> simp [hg] at h
      rw [h]
  | _ => simp [containerName, gabsSearch] at h

theorem gabsArrayAppend_obj (kvs : JObject) :
    gabsArrayAppend envars "Environment" (.obj kvs)
      = .ok (.obj (mapSet "Environment" (.arr (envEntries (.obj kvs) ++ [envars])) kvs)) := by
  simp only [gabsArrayAppend, envEntries, gabsSearch]
  cases hg : mapGet "Environment" kvs with
  | none => simp [gabsSet]
  | some v => cases v <;> simp [gabsSet]

/-! ## One iteration of the loop -/

theorem editContainer_unnamed (opts : patchOptions) {c : Json} (h : containerName c = none) :
    editContainer opts c = .ret (.ok c) := by
  simp [editContainer, h]

theorem editContainer_sidecar (opts : patchOptions) {kvs : JObject}
    (h : containerName (.obj kvs) = some "SysdigInstrumentation") :
    editContainer opts (.obj kvs) =
      if opts.LogConfiguration.length ≠ 0 then
        match awsLogConfig opts.LogConfiguration with
        | .panic v => .panic v
        | .ret cfg => .ret (.ok (.obj (mapSet "LogConfiguration" cfg kvs)))
      else .ret (.ok (.obj kvs)) := by
  simp only [editContainer, h, if_true, gabsSet]

theorem editContainer_workload (opts : patchOptions) {kvs : JObject} {n : String}
    (h : containerName (.obj kvs) = some n) (hn : n ≠ "SysdigInstrumentation") :
    editContainer opts (.obj kvs) =
      if contains opts.BarePdigOnContainers n && !contains opts.IgnoreContainers n then
        .ret (.ok (.obj (mapSet "Environment" (.arr (envEntries (.obj kvs) ++ [envars])) kvs)))
      else .ret (.ok (.obj kvs)) := by
  simp only [editContainer, h, if_neg hn, gabsArrayAppend_obj]

/-- An iteration never yields an error: `Set` and `ArrayAppend` are only reached
on a container that is an object. -/
theorem editContainer_no_error (opts : patchOptions) (c : Json) (e : GoError) :
    editContainer opts c ≠ .ret (.error e) := by
  cases hname : containerName c with
  | none => simp [editContainer_unnamed opts hname]
  | some n =>
    obtain ⟨kvs, rfl, -⟩ := containerName_some hname
    by_cases hn : n = "SysdigInstrumentation"
    · subst hn
      rw [editContainer_sidecar opts hname]
      split
      · cases awsLogConfig opts.LogConfiguration <;> simp
      · simp
    · rw [editContainer_workload opts hname hn]
      split <;> simp

/-- An iteration keeps the name of the container. -/
theorem editContainer_name {opts : patchOptions} {c c' : Json}
    (h : editContainer opts c = .ret (.ok c')) : containerName c' = containerName c := by
  cases hname : containerName c with
  | none =>
    rw [editContainer_unnamed opts hname] at h
    cases h
    exact hname
  | some n =>
    obtain ⟨kvs, rfl, -⟩ := containerName_some hname
    have hkey₁ : ("Name" : String) ≠ "LogConfiguration" := by decide
    have hkey₂ : ("Name" : String) ≠ "Environment" := by decide
    by_cases hn : n = "SysdigInstrumentation"
    · subst hn
      rw [editContainer_sidecar opts hname] at h
      split at h
      · cases hcfg : awsLogConfig opts.LogConfiguration with
        | panic v => simp [hcfg] at h
        | ret cfg =>
          simp only [hcfg, Outcome.ret.injEq, Except.ok.injEq] at h
          subst h
          rw [← hname]
          simp only [containerName, gabsSearch, mapGet_mapSet_ne _ _ _ _ hkey₁]
      · cases h
        exact hname
    · rw [editContainer_workload opts hname hn] at h
      split at h
      · simp only [Outcome.ret.injEq, Except.ok.injEq] at h
        subst h
        rw [← hname]
        simp only [containerName, gabsSearch, mapGet_mapSet_ne _ _ _ _ hkey₂]
      · cases h
        exact hname

/-! ## The loop -/

theorem editContainers_no_error (opts : patchOptions) (cs : List Json) :
    ∀ e : GoError, editContainers opts cs ≠ .ret (.error e) := by
  induction cs with
  | nil => simp [editContainers]
  | cons c rest ih =>
    intro e
    simp only [editContainers]
    cases hc : editContainer opts c with
    | panic v => simp
    | ret r =>
      cases r with
      | error e' => exact absurd hc (editContainer_no_error opts c e')
      | ok c' =>
        cases hr : editContainers opts rest with
        | panic v => simp
        | ret r' =>
          cases r' with
          | error e' => exact absurd hr (ih e')
          | ok cs' => simp

theorem editContainers_ok {opts : patchOptions} {cs : List Json} :
    ∀ {cs' : List Json}, editContainers opts cs = .ret (.ok cs') →
      cs'.length = cs.length ∧
      ∀ (i : Nat) (c : Json), cs[i]? = some c →
        ∃ c', cs'[i]? = some c' ∧ editContainer opts c = .ret (.ok c') := by
  induction cs with
  | nil =>
    intro cs' h
    simp only [editContainers, Outcome.ret.injEq, Except.ok.injEq] at h
    subst h
    simp
  | cons c rest ih =>
    intro cs' h
    simp only [editContainers] at h
    cases hc : editContainer opts c with
    | panic v => simp [hc] at h
    | ret r =>
      cases r with
      | error e => simp [hc] at h
      | ok c₁ =>
        cases hr : editContainers opts rest with
        | panic v => simp [hc, hr] at h
        | ret r' =>
          cases r' with
          | error e => simp [hc, hr] at h
          | ok rest' =>
            simp only [hc, hr, Outcome.ret.injEq, Except.ok.injEq] at h
            subst h
            obtain ⟨hlen, hget⟩ := ih hr
            refine ⟨by simp [hlen], ?_⟩
            intro i d hi
            cases i with
            | zero =>
              simp only [List.getElem?_cons_zero, Option.some.injEq] at hi
              subst hi
              exact ⟨c₁, by simp, hc⟩
            | succ j =>
              simp only [List.getElem?_cons_succ] at hi
              obtain ⟨d', hd', hed⟩ := hget j d hi
              exact ⟨d', by simpa using hd', hed⟩

theorem editContainers_mem {opts : patchOptions} {cs : List Json} :
    ∀ {cs' : List Json}, editContainers opts cs = .ret (.ok cs') →
      ∀ c' ∈ cs', ∃ c ∈ cs, editContainer opts c = .ret (.ok c') := by
  induction cs with
  | nil =>
    intro cs' h
    simp only [editContainers, Outcome.ret.injEq, Except.ok.injEq] at h
    subst h
    simp
  | cons c rest ih =>
    intro cs' h
    simp only [editContainers] at h
    cases hc : editContainer opts c with
    | panic v => simp [hc] at h
    | ret r =>
      cases r with
      | error e => simp [hc] at h
      | ok c₁ =>
        cases hr : editContainers opts rest with
        | panic v => simp [hc, hr] at h
        | ret r' =>
          cases r' with
          | error e => simp [hc, hr] at h
          | ok rest' =>
            simp only [hc, hr, Outcome.ret.injEq, Except.ok.injEq] at h
            subst h
            intro c' hc'
            rcases List.mem_cons.mp hc' with rfl | hmem
            · exact ⟨c, List.mem_cons_self _ _, hc⟩
            · obtain ⟨d, hd, hed⟩ := ih hr c' hmem
              exact ⟨d, List.mem_cons_of_mem _ hd, hed⟩

/-- An iteration returns a container, or panics in the type assertions on the
log configuration at a container named `SysdigInstrumentation`. -/
theorem editContainer_cases (opts : patchOptions) (c : Json) :
    (∃ c', editContainer opts c = .ret (.ok c')) ∨
    (∃ v, editContainer opts c = .panic v ∧ containerName c = some "SysdigInstrumentation" ∧
      opts.LogConfiguration.length ≠ 0 ∧ awsLogConfig opts.LogConfiguration = .panic v) := by
  cases hname : containerName c with
  | none => exact Or.inl ⟨c, editContainer_unnamed opts hname⟩
  | some n =>
    obtain ⟨kvs, rfl, -⟩ := containerName_some hname
    by_cases hn : n = "SysdigInstrumentation"
    · subst hn
      rw [editContainer_sidecar opts hname]
      by_cases hlen : opts.LogConfiguration.length ≠ 0
      · rw [if_pos hlen]
        cases hcfg : awsLogConfig opts.LogConfiguration with
        | panic v => exact Or.inr ⟨v, rfl, rfl, hlen, rfl⟩
        | ret cfg => exact Or.inl ⟨_, rfl⟩
      · rw [if_neg hlen]
        exact Or.inl ⟨_, rfl⟩
    · rw [editContainer_workload opts hname hn]
      split
      · exact Or.inl ⟨_, rfl⟩
      · exact Or.inl ⟨_, rfl⟩

/-- The loop runs to its end when the log configuration is not read or its three
assertions hold. -/
theorem editContainers_total (opts : patchOptions)
    (hcfg : ∀ v, awsLogConfig opts.LogConfiguration ≠ .panic v) (cs : List Json) :
    ∃ cs', editContainers opts cs = .ret (.ok cs') := by
  induction cs with
  | nil => exact ⟨[], rfl⟩
  | cons c rest ih =>
    obtain ⟨rest', hrest⟩ := ih
    rcases editContainer_cases opts c with ⟨c', hc⟩ | ⟨v, -, -, -, hv⟩
    · exact ⟨c' :: rest', by simp [editContainers, hc, hrest]⟩
    · exact absurd hv (hcfg v)

/-- The loop runs to its end when no container is named `SysdigInstrumentation`. -/
theorem editContainers_total_of_no_sidecar (opts : patchOptions) (cs : List Json)
    (hno : ∀ c ∈ cs, containerName c ≠ some "SysdigInstrumentation") :
    ∃ cs', editContainers opts cs = .ret (.ok cs') := by
  induction cs with
  | nil => exact ⟨[], rfl⟩
  | cons c rest ih =>
    obtain ⟨rest', hrest⟩ := ih (fun d hd => hno d (List.mem_cons_of_mem _ hd))
    rcases editContainer_cases opts c with ⟨c', hc⟩ | ⟨v, -, hname, -, -⟩
    · exact ⟨c' :: rest', by simp [editContainers, hc, hrest]⟩
    · exact absurd hname (hno c (List.mem_cons_self _ _))

/-- The loop panics at the first container named `SysdigInstrumentation` when
the log configuration is read and an assertion on it fails. -/
theorem editContainers_panic (opts : patchOptions) (v : PanicValue)
    (hlen : opts.LogConfiguration.length ≠ 0)
    (hcfg : awsLogConfig opts.LogConfiguration = .panic v) (cs : List Json)
    (hsome : ∃ c ∈ cs, containerName c = some "SysdigInstrumentation") :
    editContainers opts cs = .panic v := by
  induction cs with
  | nil => simp at hsome
  | cons c rest ih =>
    rcases editContainer_cases opts c with ⟨c', hc⟩ | ⟨w, hw, -, -, hw'⟩
    · have hnot : containerName c ≠ some "SysdigInstrumentation" := by
        intro hname
        obtain ⟨kvs, rfl, -⟩ := containerName_some hname
        rw [editContainer_sidecar opts hname, if_pos hlen, hcfg] at hc
        cases hc
      obtain ⟨d, hd, hdname⟩ := hsome
      rcases List.mem_cons.mp hd with rfl | hmem
      · exact absurd hdname hnot
      · simp [editContainers, hc, ih ⟨d, hmem, hdname⟩]
    · rw [hcfg] at hw'
      cases hw'
      simp [editContainers, hw]

/-! ## `fargatePostKiltModifications` on a container list -/

theorem fargatePostKiltModifications_run (ext : Externals) (b : Bytes) (opts : patchOptions)
    (cs : List Json) (hdoc : ext.jsonDecode b = .ok (.arr cs))
    (hne : ¬(opts.LogConfiguration.length = 0 ∧ opts.BarePdigOnContainers.length = 0)) :
    fargatePostKiltModifications ext b opts =
      match editContainers opts cs with
      | .panic v => .panic v
      | .ret (.error e) => .ret ([], some e)
      | .ret (.ok cs') => .ret (gabsBytes ext (.arr cs'), none) := by
  simp only [fargatePostKiltModifications, if_neg hne, hdoc, editDocument]
  cases editContainers opts cs with
  | panic v => rfl
  | ret r => cases r <;> rfl

theorem fargatePostKiltModifications_ok {ext : Externals} {b out : Bytes} {opts : patchOptions}
    {cs : List Json} (hdoc : ext.jsonDecode b = .ok (.arr cs))
    (hne : ¬(opts.LogConfiguration.length = 0 ∧ opts.BarePdigOnContainers.length = 0))
    (hrun : fargatePostKiltModifications ext b opts = .ret (out, none)) :
    ∃ cs', editContainers opts cs = .ret (.ok cs') ∧ out = gabsBytes ext (.arr cs') := by
  rw [fargatePostKiltModifications_run ext b opts cs hdoc hne] at hrun
  cases hed : editContainers opts cs with
  | panic v => simp [hed] at hrun
  | ret r =>
    cases r with
    | error e => simp [hed] at hrun
    | ok cs' =>
      simp only [hed, Outcome.ret.injEq, Prod.mk.injEq, and_true] at hrun
      exact ⟨cs', rfl, hrun.symm⟩

theorem contains_nonempty {items : List String} {n : String} (h : contains items n = true) :
    items.length ≠ 0 := by
  cases items with
  | nil => simp [contains] at h
  | cons a rest => simp

theorem mapGet_nonempty {α : Type} {m : List (String × α)} {k : String} {v : α}
    (h : mapGet k m = some v) : m.length ≠ 0 := by
  cases m with
  | nil => simp [mapGet] at h
  | cons a rest => simp

/-! ## The claims on the post-patch editor -/

/-- C1.  With an empty log configuration and an empty bare-pdig list,
`fargatePostKiltModifications` returns its input bytes unchanged and no error,
whatever the bytes (they are not parsed) and whatever the ignore list. -/
theorem fargatePostKiltModifications_noop (ext : Externals) (b : Bytes)
    (ignoreContainers : List String) :
    fargatePostKiltModifications ext b ⟨[], ignoreContainers, []⟩ = .ret (b, none) := by
  simp [fargatePostKiltModifications]

/-- C2.  When the log configuration holds the strings `group = g`,
`stream_prefix = p` and `region = r`, the call on a container list succeeds with
the marshalled list `cs'` that the loop leaves, and
every container of the output named `SysdigInstrumentation` has a field
`LogConfiguration` whose `LogDriver` is `awslogs` and whose `Options` are exactly
the three `awslogs-` entries with `g`, `p` and `r`; a previous value of the field
is replaced and a missing field is created. -/
theorem sidecar_log_configuration (ext : Externals) (b : Bytes) (opts : patchOptions)
    (cs : List Json) (g p r : String)
    (hdoc : ext.jsonDecode b = .ok (.arr cs))
    (hg : mapGet "group" opts.LogConfiguration = some (.str g))
    (hp : mapGet "stream_prefix" opts.LogConfiguration = some (.str p))
    (hr : mapGet "region" opts.LogConfiguration = some (.str r)) :
    ∃ cs', editContainers opts cs = .ret (.ok cs') ∧
      fargatePostKiltModifications ext b opts = .ret (gabsBytes ext (.arr cs'), none) ∧
      cs'.length = cs.length ∧
      ∀ c' ∈ cs', containerName c' = some "SysdigInstrumentation" →
        ∃ lc, gabsSearch "LogConfiguration" c' = some lc ∧
          gabsSearch "LogDriver" lc = some (.str "awslogs") ∧
          gabsSearch "Options" lc = some (.obj [("awslogs-group", .str g),
            ("awslogs-stream-prefix", .str p), ("awslogs-region", .str r)]) := by
  have hlen : opts.LogConfiguration.length ≠ 0 := mapGet_nonempty hg
  have hcfg : awsLogConfig opts.LogConfiguration
      = .ret (.obj [("LogDriver", .str "awslogs"),
          ("Options", .obj [("awslogs-group", .str g),
            ("awslogs-stream-prefix", .str p), ("awslogs-region", .str r)]),
          ("SecretOptions", .null)]) := by
    simp [awsLogConfig, assertString, hg, hp, hr]
  obtain ⟨cs', hcs'⟩ := editContainers_total opts (by simp [hcfg]) cs
  have hne : ¬(opts.LogConfiguration.length = 0 ∧ opts.BarePdigOnContainers.length = 0) :=
    fun h => hlen h.1
  refine ⟨cs', hcs', ?_, (editContainers_ok hcs').1, ?_⟩
  · rw [fargatePostKiltModifications_run ext b opts cs hdoc hne, hcs']
  · intro c' hc' hname'
    obtain ⟨c, -, hed⟩ := editContainers_mem hcs' c' hc'
    have hname : containerName c = some "SysdigInstrumentation" := by
      rw [← editContainer_name hed]
      exact hname'
    obtain ⟨kvs, rfl, -⟩ := containerName_some hname
    rw [editContainer_sidecar opts hname, if_pos hlen, hcfg] at hed
    simp only [Outcome.ret.injEq, Except.ok.injEq] at hed
    subst hed
    refine ⟨_, mapGet_mapSet_same _ _ _, ?_, ?_⟩
    · simp [gabsSearch, mapGet]
    · simp [gabsSearch, mapGet]

/-- C4.  When the call on a container list succeeds, a container without a
`Name` key, or whose `Name` is not a string (a lowercase `name` key does not
count), is in the output at the same position and equal to its input.  On the
short-circuit path the output is the input bytes; otherwise it is the marshalled
list `cs'` that the loop leaves. -/
theorem unnamed_container_unchanged (ext : Externals) (b out : Bytes) (opts : patchOptions)
    (cs : List Json)
    (hdoc : ext.jsonDecode b = .ok (.arr cs))
    (hrun : fargatePostKiltModifications ext b opts = .ret (out, none)) :
    ∃ cs', ((out = b ∧ cs' = cs) ∨
        (editContainers opts cs = .ret (.ok cs') ∧ out = gabsBytes ext (.arr cs'))) ∧
      cs'.length = cs.length ∧
      ∀ (i : Nat) (c : Json), cs[i]? = some c → containerName c = none → cs'[i]? = some c := by
  by_cases hne : opts.LogConfiguration.length = 0 ∧ opts.BarePdigOnContainers.length = 0
  · refine ⟨cs, Or.inl ⟨?_, rfl⟩, rfl, fun i c hi _ => hi⟩
    simp only [fargatePostKiltModifications, if_pos hne, Outcome.ret.injEq, Prod.mk.injEq,
      and_true] at hrun
    exact hrun.symm
  · obtain ⟨cs', hcs', hout⟩ := fargatePostKiltModifications_ok hdoc hne hrun
    refine ⟨cs', Or.inr ⟨hcs', hout⟩, (editContainers_ok hcs').1, ?_⟩
    intro i c hi hname
    obtain ⟨c', hc', hed⟩ := (editContainers_ok hcs').2 i c hi
    rw [editContainer_unnamed opts hname] at hed
    cases hed
    exact hc'

/-- An iteration at a container named `SysdigInstrumentation` leaves the field
`Environment` as it is. -/
theorem editContainer_sidecar_environment {opts : patchOptions} {c c' : Json}
    (hname : containerName c = some "SysdigInstrumentation")
    (hed : editContainer opts c = .ret (.ok c')) :
    gabsSearch "Environment" c' = gabsSearch "Environment" c := by
  obtain ⟨kvs, rfl, -⟩ := containerName_some hname
  have hkey : ("Environment" : String) ≠ "LogConfiguration" := by decide
  rw [editContainer_sidecar opts hname] at hed
  split at hed
  · cases hcfg : awsLogConfig opts.LogConfiguration with
    | panic v => simp [hcfg] at hed
    | ret cfg =>
      simp only [hcfg, Outcome.ret.injEq, Except.ok.injEq] at hed
      subst hed
      simp only [gabsSearch, mapGet_mapSet_ne _ _ _ _ hkey]
  · cases hed
    rfl

/-- C3, as amended.  In a successful call on a container list, a container whose
name is in `BarePdigOnContainers` and in `IgnoreContainers` keeps its
`Environment` as it is; one whose name is in `BarePdigOnContainers`, not in
`IgnoreContainers` and not `SysdigInstrumentation` gets its `Environment` extended
by the one override entry, however often the name occurs in the list; the
container named `SysdigInstrumentation` keeps its `Environment` as it is. -/
theorem bare_pdig_override_exclusive (ext : Externals) (b out : Bytes) (opts : patchOptions)
    (cs : List Json) (i : Nat) (c : Json) (n : String)
    (hdoc : ext.jsonDecode b = .ok (.arr cs))
    (hrun : fargatePostKiltModifications ext b opts = .ret (out, none))
    (hi : cs[i]? = some c) (hname : containerName c = some n)
    (hbare : contains opts.BarePdigOnContainers n = true) :
    ∃ cs' c', editContainers opts cs = .ret (.ok cs') ∧ out = gabsBytes ext (.arr cs') ∧
      cs'.length = cs.length ∧ cs'[i]? = some c' ∧
      (contains opts.IgnoreContainers n = true →
        gabsSearch "Environment" c' = gabsSearch "Environment" c) ∧
      (contains opts.IgnoreContainers n = false → n ≠ "SysdigInstrumentation" →
        gabsSearch "Environment" c' = some (.arr (envEntries c ++ [envars]))) ∧
      (n = "SysdigInstrumentation" →
        gabsSearch "Environment" c' = gabsSearch "Environment" c) := by
  have hne : ¬(opts.LogConfiguration.length = 0 ∧ opts.BarePdigOnContainers.length = 0) :=
    fun h => contains_nonempty hbare h.2
  obtain ⟨cs', hcs', hout⟩ := fargatePostKiltModifications_ok hdoc hne hrun
  obtain ⟨c', hc', hed⟩ := (editContainers_ok hcs').2 i c hi
  refine ⟨cs', c', hcs', hout, (editContainers_ok hcs').1, hc', ?_, ?_, ?_⟩
  · intro hign
    by_cases hn : n = "SysdigInstrumentation"
    · subst hn
      exact editContainer_sidecar_environment hname hed
    · obtain ⟨kvs, rfl, -⟩ := containerName_some hname
      rw [editContainer_workload opts hname hn] at hed
      simp only [hbare, hign, Bool.not_true, Bool.and_false, Bool.false_eq_true, if_false,
        Outcome.ret.injEq, Except.ok.injEq] at hed
      subst hed
      rfl
  · intro hign hn
    obtain ⟨kvs, rfl, -⟩ := containerName_some hname
    rw [editContainer_workload opts hname hn] at hed
    simp only [hbare, hign, Bool.not_false, Bool.and_self, if_true, Outcome.ret.injEq,
      Except.ok.injEq] at hed
    subst hed
    exact mapGet_mapSet_same _ _ _
  · intro hn
    subst hn
    exact editContainer_sidecar_environment hname hed

/-- C10.  In a successful call on a container list, a container that gets the
bare-wrapper override (its name is a string other than `SysdigInstrumentation`,
in `BarePdigOnContainers` and not in `IgnoreContainers`) has as `Environment`
the entries it had, in their order, followed by the one override entry (the
entries are none when the field was missing), and each of its other fields is
as before. -/
theorem bare_pdig_override_appends (ext : Externals) (b out : Bytes) (opts : patchOptions)
    (cs : List Json) (i : Nat) (c : Json) (n : String)
    (hdoc : ext.jsonDecode b = .ok (.arr cs))
    (hrun : fargatePostKiltModifications ext b opts = .ret (out, none))
    (hi : cs[i]? = some c) (hname : containerName c = some n)
    (hn : n ≠ "SysdigInstrumentation")
    (hbare : contains opts.BarePdigOnContainers n = true)
    (hign : contains opts.IgnoreContainers n = false) :
    ∃ cs' c', editContainers opts cs = .ret (.ok cs') ∧ out = gabsBytes ext (.arr cs') ∧
      cs'.length = cs.length ∧ cs'[i]? = some c' ∧
      gabsSearch "Environment" c' = some (.arr (envEntries c ++ [envars])) ∧
      ∀ k : String, k ≠ "Environment" → gabsSearch k c' = gabsSearch k c := by
  have hne : ¬(opts.LogConfiguration.length = 0 ∧ opts.BarePdigOnContainers.length = 0) :=
    fun h => contains_nonempty hbare h.2
  obtain ⟨cs', hcs', hout⟩ := fargatePostKiltModifications_ok hdoc hne hrun
  obtain ⟨c', hc', hed⟩ := (editContainers_ok hcs').2 i c hi
  obtain ⟨kvs, rfl, -⟩ := containerName_some hname
  rw [editContainer_workload opts hname hn] at hed
  simp only [hbare, hign, Bool.not_false, Bool.and_self, if_true, Outcome.ret.injEq,
    Except.ok.injEq] at hed
  subst hed
  refine ⟨cs', _, hcs', hout, (editContainers_ok hcs').1, hc', mapGet_mapSet_same _ _ _, ?_⟩
  intro k hk
  simp only [gabsSearch, mapGet_mapSet_ne _ _ _ _ hk]

/-! ## A log configuration that lacks a sub-field -/

theorem assertString_ret {v : Option Json} {s : String} (h : assertString v = .ret s) :
    v = some (.str s) := by
  cases v with
  | none => simp [assertString] at h
  | some j => cases j <;> simp [assertString] at h; rw [h]

theorem assertString_panic {v : Option Json} {w : PanicValue} (h : assertString v = .panic w) :
    ∃ e, w = .err e := by
  cases v with
  | none =>
    simp only [assertString, Outcome.panic.injEq] at h
    exact ⟨_, h.symm⟩
  | some j =>
    cases j <;> simp only [assertString, Outcome.panic.injEq] at h <;>
      first | exact ⟨_, h.symm⟩ | cases h

theorem awsLogConfig_lacking (lc : JObject)
    (hlack : ¬∃ g p r, mapGet "group" lc = some (.str g) ∧
      mapGet "stream_prefix" lc = some (.str p) ∧ mapGet "region" lc = some (.str r)) :
    ∃ e, awsLogConfig lc = .panic (.err e) := by
  unfold awsLogConfig
  cases hg : assertString (mapGet "group" lc) with
  | panic v =>
    obtain ⟨e, rfl⟩ := assertString_panic hg
    exact ⟨e, rfl⟩
  | ret g =>
    cases hp : assertString (mapGet "stream_prefix" lc) with
    | panic v =>
      obtain ⟨e, rfl⟩ := assertString_panic hp
      exact ⟨e, rfl⟩
    | ret p =>
      cases hr : assertString (mapGet "region" lc) with
      | panic v =>
        obtain ⟨e, rfl⟩ := assertString_panic hr
        exact ⟨e, rfl⟩
      | ret r =>
        exact absurd ⟨g, p, r, assertString_ret hg, assertString_ret hp, assertString_ret hr⟩ hlack

/-- C6, as amended.  With a log configuration that is present but lacks one of
the strings `group`, `stream_prefix`, `region`, a call on a container list returns
no error value.  If a container is named `SysdigInstrumentation` the call panics
with the runtime error of the first failed type assertion and so returns no
output; if none is, the log configuration is never read and the call succeeds
with the marshalled list `cs'` that the loop leaves, of the same length. -/
theorem incomplete_log_configuration (ext : Externals) (b : Bytes) (opts : patchOptions)
    (cs : List Json)
    (hdoc : ext.jsonDecode b = .ok (.arr cs))
    (hlen : opts.LogConfiguration.length ≠ 0)
    (hlack : ¬∃ g p r, mapGet "group" opts.LogConfiguration = some (.str g) ∧
      mapGet "stream_prefix" opts.LogConfiguration = some (.str p) ∧
      mapGet "region" opts.LogConfiguration = some (.str r)) :
    (∀ out err, fargatePostKiltModifications ext b opts ≠ .ret (out, some err)) ∧
    ((∃ c ∈ cs, containerName c = some "SysdigInstrumentation") →
      ∃ e, awsLogConfig opts.LogConfiguration = .panic (.err e) ∧
        fargatePostKiltModifications ext b opts = .panic (.err e)) ∧
    ((∀ c ∈ cs, containerName c ≠ some "SysdigInstrumentation") →
      ∃ cs', editContainers opts cs = .ret (.ok cs') ∧
        fargatePostKiltModifications ext b opts = .ret (gabsBytes ext (.arr cs'), none) ∧
        cs'.length = cs.length) := by
  have hne : ¬(opts.LogConfiguration.length = 0 ∧ opts.BarePdigOnContainers.length = 0) :=
    fun h => hlen h.1
  rw [fargatePostKiltModifications_run ext b opts cs hdoc hne]
  refine ⟨?_, ?_, ?_⟩
  · intro out err
    cases hed : editContainers opts cs with
    | panic v => simp
    | ret r =>
      cases r with
      | error e => exact absurd hed (editContainers_no_error opts cs e)
      | ok cs' => simp
  · intro hsome
    obtain ⟨e, he⟩ := awsLogConfig_lacking opts.LogConfiguration hlack
    exact ⟨e, he, by rw [editContainers_panic opts _ hlen he cs hsome]⟩
  · intro hno
    obtain ⟨cs', hcs'⟩ := editContainers_total_of_no_sidecar opts cs hno
    exact ⟨cs', hcs', by rw [hcs'], (editContainers_ok hcs').1⟩

/-- C2, on the scenario: the hypotheses hold there and the call returns a list
of three containers. -/
theorem sidecar_log_configuration_witness :
    scenarioExt.jsonDecode scenarioText = .ok (.arr scenarioList) ∧
    mapGet "group" scenarioOpts.LogConfiguration = some (.str "g") ∧
    ∃ cs', editContainers scenarioOpts scenarioList = .ret (.ok cs') ∧
      fargatePostKiltModifications scenarioExt scenarioText scenarioOpts
        = .ret (gabsBytes scenarioExt (.arr cs'), none) ∧
      cs'.length = scenarioList.length ∧
      ∀ c' ∈ cs', containerName c' = some "SysdigInstrumentation" →
        ∃ lc, gabsSearch "LogConfiguration" c' = some lc ∧
          gabsSearch "LogDriver" lc = some (.str "awslogs") ∧
          gabsSearch "Options" lc = some (.obj [("awslogs-group", .str "g"),
            ("awslogs-stream-prefix", .str "p"), ("awslogs-region", .str "r")]) :=
  ⟨by decide, by decide,
    sidecar_log_configuration scenarioExt scenarioText scenarioOpts scenarioList "g" "p" "r"
      (by decide) (by decide) (by decide) (by decide)⟩

/-- The scenario, evaluated: the call returns the text of `scenarioOutList`. -/
theorem scenario_run :
    fargatePostKiltModifications scenarioExt scenarioText scenarioOpts
      = .ret (scenarioOutText, none) := by
  rfl

/-- C4, on the scenario: the container with the lowercase `name` key is the
second container of the output, unchanged. -/
theorem unnamed_container_unchanged_witness :
    scenarioExt.jsonDecode scenarioText = .ok (.arr scenarioList) ∧
    fargatePostKiltModifications scenarioExt scenarioText scenarioOpts
      = .ret (scenarioOutText, none) ∧
    ∃ cs', ((scenarioOutText = scenarioText ∧ cs' = scenarioList) ∨
        (editContainers scenarioOpts scenarioList = .ret (.ok cs') ∧
          scenarioOutText = gabsBytes scenarioExt (.arr cs'))) ∧
      cs'.length = scenarioList.length ∧
      ∀ (i : Nat) (c : Json), scenarioList[i]? = some c → containerName c = none →
        cs'[i]? = some c :=
  ⟨by decide, scenario_run,
    unnamed_container_unchanged scenarioExt scenarioText scenarioOutText scenarioOpts
      scenarioList (by decide) scenario_run⟩

/-- C3, the claim as stated fails: `SysdigInstrumentation` is in
`BarePdigOnContainers` and not in `IgnoreContainers`, the call succeeds, and the
output is the input list, whose container has no `Environment` at all. -/
theorem bare_pdig_override_sidecar_counterexample :
    sidecarExt.jsonDecode sidecarText = .ok (.arr sidecarList) ∧
    sidecarList.map containerName = [some "SysdigInstrumentation"] ∧
    contains sidecarBareOpts.BarePdigOnContainers "SysdigInstrumentation" = true ∧
    contains sidecarBareOpts.IgnoreContainers "SysdigInstrumentation" = false ∧
    fargatePostKiltModifications sidecarExt sidecarText sidecarBareOpts
      = .ret (gabsBytes sidecarExt (.arr sidecarList), none) ∧
    gabsBytes sidecarExt (.arr sidecarList) = sidecarText ∧
    sidecarList.map (gabsSearch "Environment") = [none] := by
  refine ⟨by decide, by decide, by decide, by decide, by rfl, by rfl, by decide⟩

/-- C3 as amended, on the scenario: `app` is in `BarePdigOnContainers` alone and
the first container of the output has the override as its only entry. -/
theorem bare_pdig_override_exclusive_witness :
    scenarioExt.jsonDecode scenarioText = .ok (.arr scenarioList) ∧
    fargatePostKiltModifications scenarioExt scenarioText scenarioOpts
      = .ret (scenarioOutText, none) ∧
    scenarioList[0]? = some (.obj [("Name", .str "app")]) ∧
    containerName (.obj [("Name", .str "app")]) = some "app" ∧
    contains scenarioOpts.BarePdigOnContainers "app" = true ∧
    ∃ cs' c', editContainers scenarioOpts scenarioList = .ret (.ok cs') ∧
      scenarioOutText = gabsBytes scenarioExt (.arr cs') ∧
      cs'.length = scenarioList.length ∧ cs'[0]? = some c' ∧
      (contains scenarioOpts.IgnoreContainers "app" = true →
        gabsSearch "Environment" c' = gabsSearch "Environment" (.obj [("Name", .str "app")])) ∧
      (contains scenarioOpts.IgnoreContainers "app" = false → "app" ≠ "SysdigInstrumentation" →
        gabsSearch "Environment" c'
          = some (.arr (envEntries (.obj [("Name", .str "app")]) ++ [envars]))) ∧
      ("app" = "SysdigInstrumentation" →
        gabsSearch "Environment" c' = gabsSearch "Environment" (.obj [("Name", .str "app")])) :=
  ⟨by decide, scenario_run, by decide, by decide, by decide,
    bare_pdig_override_exclusive scenarioExt scenarioText scenarioOutText scenarioOpts
      scenarioList 0 (.obj [("Name", .str "app")]) "app"
      (by decide) scenario_run (by decide) (by decide) (by decide)⟩

/-- C10, on the scenario: the container `app` had no `Environment`, and has the
one override entry afterwards, its `Name` as before. -/
theorem bare_pdig_override_appends_witness :
    scenarioExt.jsonDecode scenarioText = .ok (.arr scenarioList) ∧
    fargatePostKiltModifications scenarioExt scenarioText scenarioOpts
      = .ret (scenarioOutText, none) ∧
    scenarioList[0]? = some (.obj [("Name", .str "app")]) ∧
    containerName (.obj [("Name", .str "app")]) = some "app" ∧
    "app" ≠ "SysdigInstrumentation" ∧
    contains scenarioOpts.BarePdigOnContainers "app" = true ∧
    contains scenarioOpts.IgnoreContainers "app" = false ∧
    ∃ cs' c', editContainers scenarioOpts scenarioList = .ret (.ok cs') ∧
      scenarioOutText = gabsBytes scenarioExt (.arr cs') ∧
      cs'.length = scenarioList.length ∧ cs'[0]? = some c' ∧
      gabsSearch "Environment" c'
        = some (.arr (envEntries (.obj [("Name", .str "app")]) ++ [envars])) ∧
      ∀ k : String, k ≠ "Environment" →
        gabsSearch k c' = gabsSearch k (.obj [("Name", .str "app")]) :=
  ⟨by decide, scenario_run, by decide, by decide, by decide, by decide, by decide,
    bare_pdig_override_appends scenarioExt scenarioText scenarioOutText scenarioOpts
      scenarioList 0 (.obj [("Name", .str "app")]) "app"
      (by decide) scenario_run (by decide) (by decide) (by decide) (by decide) (by decide)⟩

/-- C6, the claim as stated fails: the log configuration has a `group` only,
and the call on a list without sidecar returns the list and no error. -/
theorem incomplete_log_configuration_counterexample :
    groupOnlyOpts.LogConfiguration.length = 1 ∧
    mapGet "stream_prefix" groupOnlyOpts.LogConfiguration = none ∧
    mapGet "region" groupOnlyOpts.LogConfiguration = none ∧
    appExt.jsonDecode appText = .ok (.arr appList) ∧
    fargatePostKiltModifications appExt appText groupOnlyOpts = .ret (appText, none) := by
  refine ⟨by decide, by decide, by decide, by decide, by rfl⟩

/-- The same log configuration on the list with the sidecar: the call panics
with the error of the first failed assertion. -/
theorem incomplete_log_configuration_panic :
    fargatePostKiltModifications sidecarExt sidecarText groupOnlyOpts
      = .panic (.err ⟨"interface conversion: interface \x7b\x7d is nil, not string"⟩) := by
  rfl

/-- C6 as amended, with a log configuration that has a `group` only: on the
list with the sidecar the call panics, and on the list with `app` alone it
returns the list that the loop leaves. -/
theorem incomplete_log_configuration_witness :
    sidecarExt.jsonDecode sidecarText = .ok (.arr sidecarList) ∧
    appExt.jsonDecode appText = .ok (.arr appList) ∧
    groupOnlyOpts.LogConfiguration.length ≠ 0 ∧
    (∃ e, awsLogConfig groupOnlyOpts.LogConfiguration = .panic (.err e) ∧
      fargatePostKiltModifications sidecarExt sidecarText groupOnlyOpts = .panic (.err e)) ∧
    (∃ cs', editContainers groupOnlyOpts appList = .ret (.ok cs') ∧
      fargatePostKiltModifications appExt appText groupOnlyOpts
        = .ret (gabsBytes appExt (.arr cs'), none) ∧
      cs'.length = appList.length) :=
  ⟨by decide, by decide, by decide,
    (incomplete_log_configuration sidecarExt sidecarText groupOnlyOpts sidecarList
      (by decide) (by decide)
      (by
        rintro ⟨g, p, r, -, hp, -⟩
        simp [groupOnlyOpts, mapGet] at hp)).2.1
      ⟨.obj [("Name", .str "SysdigInstrumentation")], by simp [sidecarList], by decide⟩,
    (incomplete_log_configuration appExt appText groupOnlyOpts appList
      (by decide) (by decide)
      (by
        rintro ⟨g, p, r, -, hp, -⟩
        simp [groupOnlyOpts, mapGet] at hp)).2.2
      (by simp [appList, containerName, gabsSearch, mapGet])⟩

/-! ## The stack document -/

theorem intercalate_go_eq_foldl (sep : String) (rest : List String) :
    ∀ acc : String, String.intercalate.go acc sep rest
      = rest.foldl (fun b s => b ++ sep ++ s) acc := by
  induction rest with
  | nil => intro acc; rfl
  | cons a as ih => intro acc; simp [String.intercalate.go, ih]

/-- The function `strings.Join` joins as `String.intercalate` does. -/
theorem stringsJoin_eq_intercalate (elems : List String) (sep : String) :
    stringsJoin elems sep = String.intercalate sep elems := by
  cases elems with
  | nil => rfl
  | cons a as => simp [stringsJoin, String.intercalate, intercalate_go_eq_foldl]

/-- C8.  The stack assembled by `patchFargateTaskDefinition` has the one resource
`kilt`, whose `Tags` (in the struct, and at `Resources.kilt.Properties.Tags` of the
marshalled document) hold a tag with key `kilt-ignore-containers` exactly when
`IgnoreContainers` is not empty; the tag is then the only one and its value is
the names joined with `:` in their order; with an empty ignore list `Tags` is
the empty list. -/
theorem kilt_ignore_tag (cdefs : Option (List (Option JObject))) (opts : patchOptions) :
    ∃ r tags, (assembleStack cdefs opts).Resources = some [("kilt", r)] ∧
      r.Properties.Tags = some tags ∧
      (((gabsSearch "Resources" (assembleStack cdefs opts).toJson).bind
        (gabsSearch "kilt")).bind (gabsSearch "Properties")).bind (gabsSearch "Tags")
        = some (.arr (tags.map cfnTag.toJson)) ∧
      ((∃ t ∈ tags, t.Key = "kilt-ignore-containers") ↔ opts.IgnoreContainers ≠ []) ∧
      (opts.IgnoreContainers ≠ [] →
        tags = [⟨"kilt-ignore-containers", String.intercalate ":" opts.IgnoreContainers⟩]) ∧
      (opts.IgnoreContainers = [] → tags = []) := by
  refine ⟨_, kiltTags opts, rfl, rfl, ?_, ?_, ?_, ?_⟩
  · simp [assembleStack, cfnStack.toJson, resourcesToJson, cfnResource.toJson,
      cfnProperties.toJson, gabsSearch, mapGet, sliceToJson]
  · cases h : opts.IgnoreContainers with
    | nil => simp [kiltTags, h]
    | cons a as => simp [kiltTags, h]
  · intro hne
    cases h : opts.IgnoreContainers with
    | nil => exact absurd h hne
    | cons a as => simp [kiltTags, h, stringsJoin_eq_intercalate]
  · intro h
    simp [kiltTags, h]

theorem decodeElems_strings (xs : List String) :
    decodeElems (decodeString "") (xs.map Json.str) = .ok xs := by
  induction xs with
  | nil => rfl
  | cons a as ih => simp [decodeElems, decodeString, ih]

theorem decodeElems_maps (ms : List (Option JObject)) :
    decodeElems decodeMap (ms.map mapToJson) = .ok ms := by
  induction ms with
  | nil => rfl
  | cons a as ih => cases a <;> simp [decodeElems, decodeMap, mapToJson, ih]

theorem decodeTag_toJson (t : cfnTag) : decodeTag t.toJson = .ok t := by
  simp [decodeTag, cfnTag.toJson, decodeField, mapGet, decodeString]

theorem decodeElems_tags (ts : List cfnTag) :
    decodeElems decodeTag (ts.map cfnTag.toJson) = .ok ts := by
  induction ts with
  | nil => rfl
  | cons a as ih => simp [decodeElems, decodeTag_toJson, ih]

theorem decodeSlice_strings (xs : Option (List String)) (ty : String) :
    decodeSlice (decodeString "") ty (sliceToJson Json.str xs) = .ok xs := by
  cases xs with
  | none => rfl
  | some l => simp [decodeSlice, sliceToJson, decodeElems_strings]

theorem decodeSlice_maps (ms : Option (List (Option JObject))) (ty : String) :
    decodeSlice decodeMap ty (sliceToJson mapToJson ms) = .ok ms := by
  cases ms with
  | none => rfl
  | some l => simp [decodeSlice, sliceToJson, decodeElems_maps]

theorem decodeSlice_tags (ts : Option (List cfnTag)) (ty : String) :
    decodeSlice decodeTag ty (sliceToJson cfnTag.toJson ts) = .ok ts := by
  cases ts with
  | none => rfl
  | some l => simp [decodeSlice, sliceToJson, decodeElems_tags]

/-- Decoding a marshalled `cfnProperties` gives it back. -/
theorem decodeProperties_toJson (p : cfnProperties) : decodeProperties p.toJson = .ok p := by
  simp [decodeProperties, cfnProperties.toJson, decodeField, mapGet, decodeSlice_strings,
    decodeSlice_maps, decodeSlice_tags]

/-- Decoding a marshalled `cfnResource` gives it back. -/
theorem decodeResource_toJson (r : cfnResource) : decodeResource r.toJson = .ok r := by
  simp [decodeResource, cfnResource.toJson, decodeField, mapGet, decodeString,
    decodeProperties_toJson]

/-- Decoding the assembled stack into an empty `cfnStack` gives it back. -/
theorem decodeStack_assembleStack (cdefs : Option (List (Option JObject)))
    (opts : patchOptions) :
    decodeStack ⟨none⟩ (assembleStack cdefs opts).toJson = .ok (assembleStack cdefs opts) := by
  simp [decodeStack, assembleStack, cfnStack.toJson, resourcesToJson, mapGet, decodeResources,
    decodeResource_toJson, mapSet]

/-- C9.  For a list `L` of JSON objects, the stack assembled by
`patchFargateTaskDefinition`, marshalled to a text that the text layer decodes
back to the marshalled tree, unmarshals into a stack with the single resource
`kilt` whose `ContainerDefinitions` is `L`, same length and same order. -/
theorem assembled_stack_round_trip (ext : Externals) (L : List JObject) (opts : patchOptions)
    (doc : Bytes)
    (henc : ext.jsonEncode (assembleStack (some (L.map some)) opts).toJson = .ok doc)
    (hdec : ext.jsonDecode doc = .ok (assembleStack (some (L.map some)) opts).toJson) :
    ∃ r, jsonUnmarshalStack ext doc ⟨none⟩ = .ok ⟨some [("kilt", r)]⟩ ∧
      r.Properties.ContainerDefinitions = some (L.map some) ∧
      (sliceToJson mapToJson r.Properties.ContainerDefinitions) = .arr (L.map Json.obj) := by
  have _ := henc
  refine ⟨⟨"AWS::ECS::TaskDefinition", ⟨some ["FARGATE"], some (L.map some),
    some (kiltTags opts)⟩⟩, ?_, rfl, ?_⟩
  · simp only [jsonUnmarshalStack, hdec, decodeStack_assembleStack]
    rfl
  · simp [sliceToJson, mapToJson, List.map_map, Function.comp_def]

/-- C9, on the `app` example. -/
theorem assembled_stack_round_trip_witness :
    appExt.jsonEncode (assembleStack (some ([[("Name", .str "app")]].map some)) appOpts).toJson
      = .ok appStackText ∧
    appExt.jsonDecode appStackText
      = .ok (assembleStack (some ([[("Name", .str "app")]].map some)) appOpts).toJson ∧
    ∃ r, jsonUnmarshalStack appExt appStackText ⟨none⟩ = .ok ⟨some [("kilt", r)]⟩ ∧
      r.Properties.ContainerDefinitions = some ([[("Name", .str "app")]].map some) ∧
      (sliceToJson mapToJson r.Properties.ContainerDefinitions)
        = .arr ([[("Name", .str "app")]].map Json.obj) :=
  ⟨by rfl, by rfl,
    assembled_stack_round_trip appExt [[("Name", .str "app")]] appOpts appStackText
      (by rfl) (by rfl)⟩

/-! ## `patchFargateTaskDefinition`: faults and errors -/

/-- The guarded statements panic when the patcher does. -/
theorem patchGuarded_of_Patch_panic (ext : Externals) (cfg : Configuration)
    (opts : patchOptions) (stack : cfnStack) (doc doc' : Bytes) (e : Option GoError)
    (v : PanicValue)
    (hpre : ext.terraformPreModifications doc = .ret (doc', e))
    (hpatch : ext.Patch cfg doc' = .panic v) :
    patchGuarded ext cfg opts stack doc = .panic v := by
  simp [patchGuarded, hpre, hpatch]

/-- The guarded statements panic only where `terraformPreModifications`, the
patcher or the post-processing step panics. -/
theorem patchGuarded_panic_iff (ext : Externals) (cfg : Configuration) (opts : patchOptions)
    (stack : cfnStack) (doc : Bytes) (v : PanicValue) :
    patchGuarded ext cfg opts stack doc = .panic v ↔
      ext.terraformPreModifications doc = .panic v ∨
      ∃ doc' e, ext.terraformPreModifications doc = .ret (doc', e) ∧
        (ext.Patch cfg doc' = .panic v ∨
          ∃ pb st bytes, ext.Patch cfg doc' = .ret (pb, none) ∧
            jsonUnmarshalStack ext pb stack = .ok st ∧
            ext.jsonEncode (sliceToJson mapToJson
              (kiltResource st).Properties.ContainerDefinitions) = .ok bytes ∧
            fargatePostKiltModifications ext bytes opts = .panic v) := by
  unfold patchGuarded
  cases hpre : ext.terraformPreModifications doc with
  | panic w => simp
  | ret r =>
    obtain ⟨doc', e⟩ := r
    cases hpatch : ext.Patch cfg doc' with
    | panic w => simp [hpatch]
    | ret r' =>
      obtain ⟨pb, err⟩ := r'
      cases err with
      | some err => simp [hpatch]
      | none =>
        cases hst : jsonUnmarshalStack ext pb stack with
        | error err => simp [hpatch, hst]
        | ok st =>
          cases henc : ext.jsonEncode
              (sliceToJson mapToJson (kiltResource st).Properties.ContainerDefinitions) with
          | error err => simp [hpatch, hst, henc]
          | ok bytes =>
            cases hpost : fargatePostKiltModifications ext bytes opts with
            | panic w => simp [hpatch, hst, henc, hpost]
            | ret r'' =>
              obtain ⟨out, err⟩ := r''
              simp [hpatch, hst, henc, hpost]

/-- C7.  When the input is decoded and the stack marshalled, and the guarded
statements (the call of `terraformPreModifications`, the external patcher and all
later steps) panic with a value `v`, `patchFargateTaskDefinition` returns normally
with a nil result and a non-nil error: the error with message `v` for a string,
`v` itself for an error, and the error `unknown panic` otherwise. -/
theorem patch_fault_contained (ext : Externals) (cd : Bytes) (cfg : Configuration)
    (opts : patchOptions) (cdefs : Option (List (Option JObject))) (doc : Bytes)
    (v : PanicValue)
    (hdec : jsonUnmarshalCdefs ext cd = .ok cdefs)
    (henc : ext.jsonEncode (assembleStack cdefs opts).toJson = .ok doc)
    (hfault : patchGuarded ext cfg opts (assembleStack cdefs opts) doc = .panic v) :
    ∃ err, patchFargateTaskDefinition ext cd cfg opts = .ret (none, some err) ∧
      (∀ s, v = .str s → err = ⟨s⟩) ∧
      (∀ e, v = .err e → err = e) ∧
      (∀ k, v = .other k → err = ⟨"unknown panic"⟩) := by
  refine ⟨recoveredError v, ?_, ?_, ?_, ?_⟩
  · simp [patchFargateTaskDefinition, hdec, henc, hfault]
  · rintro s rfl; rfl
  · rintro e rfl; rfl
  · rintro k rfl; rfl

/-- C7, on the `app` example with a patcher that panics with `boom`: the call
returns a nil result and the error `boom`. -/
theorem patch_fault_contained_witness :
    jsonUnmarshalCdefs boomExt appText = .ok (some [some [("Name", .str "app")]]) ∧
    boomExt.jsonEncode (assembleStack (some [some [("Name", .str "app")]]) appOpts).toJson
      = .ok appStackText ∧
    boomExt.Patch exampleConfig appStackText = .panic (.str "boom") ∧
    patchGuarded boomExt exampleConfig appOpts
      (assembleStack (some [some [("Name", .str "app")]]) appOpts) appStackText
      = .panic (.str "boom") ∧
    ∃ err, patchFargateTaskDefinition boomExt appText exampleConfig appOpts
        = .ret (none, some err) ∧
      (∀ s, PanicValue.str "boom" = .str s → err = ⟨s⟩) ∧
      (∀ e, PanicValue.str "boom" = .err e → err = e) ∧
      (∀ k, PanicValue.str "boom" = .other k → err = ⟨"unknown panic"⟩) :=
  ⟨by rfl, by rfl, by rfl, by rfl,
    patch_fault_contained boomExt appText exampleConfig appOpts
      (some [some [("Name", .str "app")]]) appStackText (.str "boom")
      (by rfl) (by rfl) (by rfl)⟩

/-- The `app` example with a patcher that panics with `boom`, evaluated. -/
theorem boom_run :
    patchFargateTaskDefinition boomExt appText exampleConfig appOpts
      = .ret (none, some ⟨"boom"⟩) := by
  rfl

/-- The `app` example, evaluated: the patcher returns the stack as it is and the
post-processing step adds the override to `app`. -/
theorem app_run :
    patchFargateTaskDefinition appExt appText exampleConfig appOpts
      = .ret (some appOutText, none) := by
  rfl

/-- When the post-processing step returns, whatever error it returns is
dropped: the result is the string of the returned bytes and a nil error. -/
theorem post_processing_error_dropped (ext : Externals) (cd : Bytes) (cfg : Configuration)
    (opts : patchOptions) (cdefs : Option (List (Option JObject)))
    (doc doc' pb bytes out : Bytes) (e : Option GoError) (st : cfnStack) (err : Option GoError)
    (hdec : jsonUnmarshalCdefs ext cd = .ok cdefs)
    (henc : ext.jsonEncode (assembleStack cdefs opts).toJson = .ok doc)
    (hpre : ext.terraformPreModifications doc = .ret (doc', e))
    (hpatch : ext.Patch cfg doc' = .ret (pb, none))
    (hst : jsonUnmarshalStack ext pb (assembleStack cdefs opts) = .ok st)
    (hbytes : ext.jsonEncode (sliceToJson mapToJson
      (kiltResource st).Properties.ContainerDefinitions) = .ok bytes)
    (hpost : fargatePostKiltModifications ext bytes opts = .ret (out, err)) :
    patchFargateTaskDefinition ext cd cfg opts = .ret (some out, none) := by
  simp [patchFargateTaskDefinition, patchGuarded, hdec, henc, hpre, hpatch, hst, hbytes, hpost]

/-- The assignment to `err` at the call of the post-processing step is never
tested.  With a text layer whose decoder rejects the text that its encoder wrote,
which `encoding/json` is not, the step returns the error of a failed parse and
`patchFargateTaskDefinition` returns a pointer to the empty string and a nil
error. -/
theorem post_processing_error_swallowed :
    jsonUnmarshalCdefs narrowExt appSpacedText = .ok (some [some [("Name", .str "app")]]) ∧
    narrowExt.Patch exampleConfig appStackText = .ret (appStackText, none) ∧
    fargatePostKiltModifications narrowExt appText appOpts
      = .ret ([], some ⟨"failed to parse containers for post-processing: invalid character"⟩) ∧
    patchFargateTaskDefinition narrowExt appSpacedText exampleConfig appOpts
      = .ret (some [], none) := by
  refine ⟨by rfl, by rfl, by rfl, by rfl⟩

/-! ## Repeated post-processing -/

/-- Editing a workload container a second time appends the override a second
time. -/
theorem editContainer_override_twice (opts : patchOptions) (kvs : JObject) (n : String)
    (hname : containerName (.obj kvs) = some n) (hn : n ≠ "SysdigInstrumentation")
    (hbare : contains opts.BarePdigOnContainers n = true)
    (hign : contains opts.IgnoreContainers n = false) :
    ∃ c₁ c₂, editContainer opts (.obj kvs) = .ret (.ok c₁) ∧
      editContainer opts c₁ = .ret (.ok c₂) ∧
      gabsSearch "Environment" c₁ = some (.arr (envEntries (.obj kvs) ++ [envars])) ∧
      gabsSearch "Environment" c₂ = some (.arr (envEntries (.obj kvs) ++ [envars, envars])) := by
  have h₁ : editContainer opts (.obj kvs) = .ret (.ok (.obj
      (mapSet "Environment" (.arr (envEntries (.obj kvs) ++ [envars])) kvs))) := by
    rw [editContainer_workload opts hname hn]
    simp [hbare, hign]
  have hname₁ := (editContainer_name h₁).trans hname
  have henv : envEntries (.obj (mapSet "Environment"
      (.arr (envEntries (.obj kvs) ++ [envars])) kvs)) = envEntries (.obj kvs) ++ [envars] := by
    simp [envEntries, gabsSearch, mapGet_mapSet_same]
  have h₂ : editContainer opts (.obj (mapSet "Environment"
      (.arr (envEntries (.obj kvs) ++ [envars])) kvs)) = .ret (.ok (.obj
        (mapSet "Environment" (.arr ((envEntries (.obj kvs) ++ [envars]) ++ [envars]))
          (mapSet "Environment" (.arr (envEntries (.obj kvs) ++ [envars])) kvs)))) := by
    rw [editContainer_workload opts hname₁ hn, henv]
    simp [hbare, hign]
  refine ⟨_, _, h₁, h₂, mapGet_mapSet_same _ _ _, ?_⟩
  simp only [gabsSearch, mapGet_mapSet_same, List.append_assoc]
  rfl

/-- C11.  `fargatePostKiltModifications` is not idempotent: with `app` in
`BarePdigOnContainers` and not in `IgnoreContainers`, one call on the list with
the container `app` gives the list with one override entry, and a call on that
output gives a different text, the list with the override entry twice. -/
theorem post_processing_not_idempotent :
    contains appOpts.BarePdigOnContainers "app" = true ∧
    contains appOpts.IgnoreContainers "app" = false ∧
    twiceExt.jsonDecode appText = .ok (.arr appList) ∧
    fargatePostKiltModifications twiceExt appText appOpts = .ret (appOutText, none) ∧
    fargatePostKiltModifications twiceExt appOutText appOpts = .ret (appTwiceText, none) ∧
    appTwiceText ≠ appOutText ∧
    twiceExt.jsonDecode appOutText = .ok (.arr appOutList) ∧
    twiceExt.jsonDecode appTwiceText = .ok (.arr appTwiceList) ∧
    appOutList.map envEntries = [[envars]] ∧
    appTwiceList.map envEntries = [[envars, envars]] := by
  refine ⟨by decide, by decide, by decide, by rfl, by rfl, by decide, by decide, by decide,
    by decide, by decide⟩

/-! ## `ErrorFromResponse` -/

theorem jpProjectElems_cons_of_ne (f : Json → Json) (x : Json) (rest : List Json)
    (h : f x ≠ .null) : jpProjectElems f (x :: rest) = f x :: jpProjectElems f rest := by
  cases hx : f x <;> simp_all [jpProjectElems]

theorem jpProjectElems_id_strs (ss : List String) :
    jpProjectElems id (ss.map Json.str) = ss.map Json.str := by
  induction ss with
  | nil => rfl
  | cons a as ih =>
    rw [List.map_cons, jpProjectElems_cons_of_ne _ _ _ (by simp), ih]
    rfl

theorem jpFlattenElems_strs (ss : List String) :
    jpFlattenElems (ss.map Json.str) = ss.map Json.str := by
  induction ss with
  | nil => rfl
  | cons a as ih => simp [jpFlattenElems, ih]

theorem jpStrings_strs (ss : List String) : jpStrings (ss.map Json.str) = some ss := by
  induction ss with
  | nil => rfl
  | cons a as ih => simp [jpStrings, ih]

/-- The pairs `[reason, message]` of the errors, as JSON lists. -/
theorem jpProjectElems_reasonMessage {es : List Json} {rm : List (String × String)}
    (h : List.Forall₂ (fun e p => ∃ kvs, e = Json.obj kvs ∧
      mapGet "reason" kvs = some (.str p.1) ∧ mapGet "message" kvs = some (.str p.2)) es rm) :
    jpFlattenElems es = es ∧
    jpProjectElems jpReasonMessage es = rm.map (fun p => Json.arr [.str p.1, .str p.2]) := by
  induction h with
  | nil => exact ⟨rfl, rfl⟩
  | cons hhead _ ih =>
    obtain ⟨kvs, rfl, hr, hm⟩ := hhead
    refine ⟨by simp [jpFlattenElems, ih.1], ?_⟩
    rw [jpProjectElems_cons_of_ne _ _ _ (by simp [jpReasonMessage]), ih.2]
    simp [jpReasonMessage, jpField, hr, hm]

theorem jpFlattenElems_pairs (rm : List (String × String)) :
    jpFlattenElems (rm.map (fun p => Json.arr [.str p.1, .str p.2]))
      = (rm.flatMap (fun p => [p.1, p.2])).map Json.str := by
  induction rm with
  | nil => rfl
  | cons a as ih => simp [jpFlattenElems, ih]

theorem jpProjectElems_id_pairs (rm : List (String × String)) :
    jpProjectElems id (rm.map (fun p => Json.arr [.str p.1, .str p.2]))
      = rm.map (fun p => Json.arr [.str p.1, .str p.2]) := by
  induction rm with
  | nil => rfl
  | cons a as ih =>
    rw [List.map_cons, jpProjectElems_cons_of_ne _ _ _ (by simp), ih]
    rfl

/-- The search on an object without `message` and without `errors` succeeds with
the empty string. -/
theorem jmespathSearch_absent (kvs : JObject) (hm : mapGet "message" kvs = none)
    (he : mapGet "errors" kvs = none) : jmespathSearch (.obj kvs) = .ok (.str "") := by
  simp [jmespathSearch, jpSelect, jpField, hm, he, jpFlatten, jpProject, jpFlattenElems,
    jpProjectElems, jpJoin, jpStrings, stringsJoin]

/-- The search fails on the body `null`. -/
theorem jmespathSearch_null : ∃ e, jmespathSearch .null = .error e :=
  ⟨_, rfl⟩

/-- The search fails when `message` is a number and `errors` is missing. -/
theorem jmespathSearch_number (kvs : JObject) (bits : Nat)
    (hm : mapGet "message" kvs = some (.num bits)) (he : mapGet "errors" kvs = none) :
    ∃ e, jmespathSearch (.obj kvs) = .error e := by
  refine ⟨⟨"Invalid type for join"⟩, ?_⟩
  simp [jmespathSearch, jpSelect, jpField, hm, he, jpFlatten, jpProject, jpFlattenElems,
    jpProjectElems, jpJoin, jpStrings]

/-- The search on a body with a string `message` and an `errors` list of objects
with string `reason` and `message`. -/
theorem jmespathSearch_messages (kvs : JObject) (m : String) (es : List Json)
    (rm : List (String × String))
    (hm : mapGet "message" kvs = some (.str m))
    (he : mapGet "errors" kvs = some (.arr es))
    (hes : List.Forall₂ (fun e p => ∃ kvs, e = Json.obj kvs ∧
      mapGet "reason" kvs = some (.str p.1) ∧ mapGet "message" kvs = some (.str p.2)) es rm) :
    jmespathSearch (.obj kvs)
      = .ok (.str (stringsJoin (m :: rm.flatMap (fun p => [p.1, p.2])) ", ")) := by
  obtain ⟨hflat, hproj⟩ := jpProjectElems_reasonMessage hes
  have h₁ : jpSelect (.obj kvs)
      = .arr [.str m, .arr (rm.map (fun p => Json.arr [.str p.1, .str p.2]))] := by
    simp [jpSelect, jpField, hm, he, jpFlatten, jpProject, hflat, hproj]
  have h₂ : jpProject id (jpFlatten (jpSelect (.obj kvs)))
      = .arr (.str m :: rm.map (fun p => Json.arr [.str p.1, .str p.2])) := by
    rw [h₁]
    simp only [jpFlatten, jpFlattenElems, jpProject, List.append_nil]
    rw [jpProjectElems_cons_of_ne _ _ _ (by simp), jpProjectElems_id_pairs]
    rfl
  have h₃ : jpProject id (jpFlatten (jpProject id (jpFlatten (jpSelect (.obj kvs)))))
      = .arr ((m :: rm.flatMap (fun p => [p.1, p.2])).map Json.str) := by
    rw [h₂]
    simp only [jpFlatten, jpFlattenElems, jpProject, jpFlattenElems_pairs, List.map_cons]
    rw [jpProjectElems_cons_of_ne _ _ _ (by simp), jpProjectElems_id_strs]
    rfl
  simp only [jmespathSearch, h₃, jpJoin, jpStrings_strs]

/-- C12, the code at the failing input: for the body `{}` of a 404 response the
search succeeds with the empty string and `ErrorFromResponse` returns the error
with the empty message, not the one with the status text. -/
theorem error_from_response_empty_message :
    exampleHttp.Decode notFoundResponse.Body = .ok (.obj []) ∧
    notFoundResponse.Status = "404 Not Found" ∧
    jmespathSearch (.obj []) = .ok (.str "") ∧
    ErrorFromResponse exampleHttp notFoundResponse = ⟨""⟩ ∧
    ErrorFromResponse exampleHttp notFoundResponse ≠ ⟨notFoundResponse.Status⟩ := by
  refine ⟨by decide, by decide, by decide, by decide, by decide⟩

/-- The paths of `ErrorFromResponse` without extracted text.  It returns the
error with the status text when the body does not decode as JSON, and when the
JMESPath search on the decoded body fails, as it does on `null` and on a
`message` that is a number; on an object in which `message` and `errors` are
absent the search succeeds and the error has the empty message. -/
theorem error_from_response_fallback (lib : HttpExternals) (response : Response) :
    ((∃ e, lib.Decode response.Body = .error e) →
      ErrorFromResponse lib response = ⟨response.Status⟩) ∧
    (∀ data, lib.Decode response.Body = .ok data → (∃ e, jmespathSearch data = .error e) →
      ErrorFromResponse lib response = ⟨response.Status⟩) ∧
    (lib.Decode response.Body = .ok .null →
      ErrorFromResponse lib response = ⟨response.Status⟩) ∧
    (∀ kvs bits, lib.Decode response.Body = .ok (.obj kvs) →
      mapGet "message" kvs = some (.num bits) → mapGet "errors" kvs = none →
      ErrorFromResponse lib response = ⟨response.Status⟩) ∧
    (∀ kvs, lib.Decode response.Body = .ok (.obj kvs) →
      mapGet "message" kvs = none → mapGet "errors" kvs = none →
      ErrorFromResponse lib response = ⟨""⟩) := by
  have hfail : ∀ data, lib.Decode response.Body = .ok data →
      (∃ e, jmespathSearch data = .error e) →
      ErrorFromResponse lib response = ⟨response.Status⟩ := by
    rintro data hd ⟨e, he⟩
    simp [ErrorFromResponse, hd, he]
  refine ⟨?_, hfail, ?_, ?_, ?_⟩
  · rintro ⟨e, he⟩
    simp [ErrorFromResponse, he]
  · intro hd
    exact hfail _ hd jmespathSearch_null
  · intro kvs bits hd hm he
    exact hfail _ hd (jmespathSearch_number kvs bits hm he)
  · intro kvs hd hm he
    simp [ErrorFromResponse, hd, jmespathSearch_absent kvs hm he, castToString]

/-- The fallback on a body that is not in the table of the decoder. -/
theorem error_from_response_fallback_example :
    (∃ e, exampleHttp.Decode (ascii "<html>") = .error e) ∧
    ErrorFromResponse exampleHttp ⟨"502 Bad Gateway", 502, ascii "<html>"⟩
      = ⟨"502 Bad Gateway"⟩ :=
  ⟨⟨_, rfl⟩,
    (error_from_response_fallback exampleHttp ⟨"502 Bad Gateway", 502, ascii "<html>"⟩).1
      ⟨_, rfl⟩⟩

/-- C13.  For a body that decodes to an object with the string `message = m` and
an `errors` list of objects with strings `reason = r_i` and `message = m_i`, the
error message is `m, r_1, m_1, ..., r_n, m_n` joined with a comma and a blank. -/
theorem error_from_response_messages (lib : HttpExternals) (response : Response)
    (kvs : JObject) (m : String) (es : List Json) (rm : List (String × String))
    (hbody : lib.Decode response.Body = .ok (.obj kvs))
    (hm : mapGet "message" kvs = some (.str m))
    (he : mapGet "errors" kvs = some (.arr es))
    (hes : List.Forall₂ (fun e p => ∃ kvs, e = Json.obj kvs ∧
      mapGet "reason" kvs = some (.str p.1) ∧ mapGet "message" kvs = some (.str p.2)) es rm) :
    ErrorFromResponse lib response
      = ⟨String.intercalate ", " (m :: rm.flatMap (fun p => [p.1, p.2]))⟩ := by
  simp only [ErrorFromResponse, hbody, jmespathSearch_messages kvs m es rm hm he hes,
    castToString, stringsJoin_eq_intercalate]

/-- C13, on a body with one error: the message is `m, r1, m1`. -/
theorem error_from_response_messages_witness :
    exampleHttp.Decode (ascii "body") = .ok (.obj [("message", .str "m"),
      ("errors", .arr [.obj [("reason", .str "r1"), ("message", .str "m1")]])]) ∧
    ErrorFromResponse exampleHttp ⟨"400 Bad Request", 400, ascii "body"⟩
      = ⟨String.intercalate ", " ("m" :: [("r1", "m1")].flatMap (fun p => [p.1, p.2]))⟩ ∧
    String.intercalate ", " ("m" :: [("r1", "m1")].flatMap (fun p => [p.1, p.2]))
      = "m, r1, m1" :=
  ⟨by decide,
    error_from_response_messages exampleHttp ⟨"400 Bad Request", 400, ascii "body"⟩
      [("message", .str "m"),
        ("errors", .arr [.obj [("reason", .str "r1"), ("message", .str "m1")]])]
      "m" [.obj [("reason", .str "r1"), ("message", .str "m1")]] [("r1", "m1")]
      (by decide) (by decide) (by decide)
      (List.Forall₂.cons ⟨_, rfl, by decide, by decide⟩ List.Forall₂.nil),
    by decide⟩

/-! ## `DeleteGroupMapping` -/

/-- C14.  When the request succeeds with a response, `DeleteGroupMapping` returns
a nil error exactly when the status code is 200, 204 or 404, so that deleting a
group mapping that is already absent succeeds; for any other status code it
returns the error built by `ErrorFromResponse`. -/
theorem delete_group_mapping_status (lib : HttpExternals) (client : Client) (id : Int)
    (response : Response)
    (hreq : client.DoSysdigRequest "DELETE" (DeleteGroupMappingUrl client id) = .ok response) :
    (DeleteGroupMapping lib client id = none ↔
      response.StatusCode = 200 ∨ response.StatusCode = 204 ∨ response.StatusCode = 404) ∧
    (response.StatusCode = 404 → DeleteGroupMapping lib client id = none) ∧
    (¬(response.StatusCode = 200 ∨ response.StatusCode = 204 ∨ response.StatusCode = 404) →
      DeleteGroupMapping lib client id = some (ErrorFromResponse lib response)) := by
  simp only [DeleteGroupMapping, hreq]
  by_cases h200 : response.StatusCode = 200
  · simp [h200]
  · by_cases h204 : response.StatusCode = 204
    · simp [h204]
    · by_cases h404 : response.StatusCode = 404
      · simp [h404]
      · simp [h200, h204, h404]

/-- C14, on a 404 response and on a 500 response. -/
theorem delete_group_mapping_status_witness :
    (fixedClient notFoundResponse).DoSysdigRequest "DELETE"
      (DeleteGroupMappingUrl (fixedClient notFoundResponse) 7) = .ok notFoundResponse ∧
    DeleteGroupMapping exampleHttp (fixedClient notFoundResponse) 7 = none ∧
    DeleteGroupMapping exampleHttp (fixedClient serverErrorResponse) 7
      = some (ErrorFromResponse exampleHttp serverErrorResponse) :=
  ⟨rfl,
    (delete_group_mapping_status exampleHttp (fixedClient notFoundResponse) 7
      notFoundResponse rfl).2.1 (by decide),
    (delete_group_mapping_status exampleHttp (fixedClient serverErrorResponse) 7
      serverErrorResponse rfl).2.2 (by decide)⟩

/-! ## The Slack notification channel resource -/

/-- C15.  In `resourceSysdigSecureNotificationChannelSlackRead`, once the client
is obtained and the id parsed: when the lookup fails with
`NotificationChannelNotFound` the id becomes the empty string, the attributes
stay and no diagnostic is returned; when it fails with another error the resource
data is left as it is and the one diagnostic returned is that error. -/
theorem slack_read_lookup_failure (env : SlackExternals) (d : ResourceData)
    (client : NotificationChannelClient) (id : Int)
    (hclient : env.getSecureNotificationChannelClient = .ok client)
    (hid : strconvAtoi d.Id = .ok id) :
    (client.GetNotificationChannelById id = .error .NotificationChannelNotFound →
      resourceSysdigSecureNotificationChannelSlackRead env d = (⟨"", d.attrs⟩, [])) ∧
    (∀ err, client.GetNotificationChannelById id = .error (.other err) →
      resourceSysdigSecureNotificationChannelSlackRead env d
        = (d, [⟨.Error, err.Error, ""⟩])) := by
  constructor
  · intro h
    simp [resourceSysdigSecureNotificationChannelSlackRead, hclient, hid, h]
  · intro err h
    simp [resourceSysdigSecureNotificationChannelSlackRead, hclient, hid, h, diagFromErr]

/-- C15, on a channel with id `42`: a lookup that reports the channel missing
clears the id, and a lookup that fails otherwise is reported. -/
theorem slack_read_lookup_failure_witness :
    strconvAtoi slackData.Id = .ok 42 ∧
    resourceSysdigSecureNotificationChannelSlackRead
      (slackEnv (.error .NotificationChannelNotFound)) slackData
      = (⟨"", slackData.attrs⟩, []) ∧
    resourceSysdigSecureNotificationChannelSlackRead
      (slackEnv (.error (.other ⟨"timeout"⟩))) slackData
      = (slackData, [⟨.Error, "timeout", ""⟩]) :=
  ⟨by decide,
    (slack_read_lookup_failure (slackEnv (.error .NotificationChannelNotFound)) slackData
      ⟨fun _ => .error .NotificationChannelNotFound⟩ 42 rfl (by decide)).1 rfl,
    (slack_read_lookup_failure (slackEnv (.error (.other ⟨"timeout"⟩))) slackData
      ⟨fun _ => .error (.other ⟨"timeout"⟩)⟩ 42 rfl (by decide)).2 ⟨"timeout"⟩ rfl⟩

/-! ## The data source -/

/-- A run of the data source that returns no diagnostics has set the id to the
hexadecimal digest of the input container definitions. -/
theorem read_success_id {ext : Externals} {Sum256 : Bytes → List UInt8}
    {d r : FargateResourceData}
    (h : dataSourceSysdigFargateWorkloadAgentRead ext Sum256 d = .ret (r, [])) :
    r.Id = sprintfHex (Sum256 d.container_definitions) ∧
    r.container_definitions = d.container_definitions := by
  simp only [dataSourceSysdigFargateWorkloadAgentRead] at h
  split at h
  · simp [diagErrorf] at h
  · split at h
    · simp at h
    · simp [diagErrorf] at h
    · simp at h
    · simp only [Outcome.ret.injEq, Prod.mk.injEq, and_true] at h
      subst h
      exact ⟨rfl, rfl⟩

/-- C16.  Two runs of `dataSourceSysdigFargateWorkloadAgentRead` that return no
diagnostics and have the same `container_definitions` set the same id, the
lowercase hexadecimal text of the SHA-256 digest of that string, whatever the
other attributes and whatever the external code does in each run. -/
theorem read_id_from_container_definitions (ext ext' : Externals)
    (Sum256 : Bytes → List UInt8) (d d' r r' : FargateResourceData)
    (hsame : d.container_definitions = d'.container_definitions)
    (hrun : dataSourceSysdigFargateWorkloadAgentRead ext Sum256 d = .ret (r, []))
    (hrun' : dataSourceSysdigFargateWorkloadAgentRead ext' Sum256 d' = .ret (r', [])) :
    r.Id = r'.Id ∧ r.Id = sprintfHex (Sum256 d.container_definitions) := by
  rw [(read_success_id hrun).1, (read_success_id hrun').1, hsame]
  exact ⟨rfl, rfl⟩

/-- The run on `readData`, evaluated: the blanks around `app` are trimmed, the
container gets the override, and the id is the digest text. -/
theorem read_run :
    dataSourceSysdigFargateWorkloadAgentRead readExt exampleSum readData
      = .ret (⟨appText, "", "img", "", "", "", "", "", some [], some [.str " app "], [], "",
          appOutText, "10ab"⟩, []) := by
  rfl

/-- The run on `readDataPlain`, evaluated: the output is the input list. -/
theorem read_run_plain :
    dataSourceSysdigFargateWorkloadAgentRead readExt exampleSum readDataPlain
      = .ret (⟨appText, "", "img", "", "", "", "", "", some [], none, [], "",
          appText, "10ab"⟩, []) := by
  rfl

/-- C16, on two runs with the same container definitions and different
bare-pdig lists: the outputs differ and the ids agree. -/
theorem read_id_from_container_definitions_witness :
    readData.container_definitions = readDataPlain.container_definitions ∧
    appOutText ≠ appText ∧
    (⟨appText, "", "img", "", "", "", "", "", some [], some [.str " app "], [], "",
        appOutText, "10ab"⟩ : FargateResourceData).Id
      = (⟨appText, "", "img", "", "", "", "", "", some [], none, [], "",
        appText, "10ab"⟩ : FargateResourceData).Id ∧
    (⟨appText, "", "img", "", "", "", "", "", some [], some [.str " app "], [], "",
        appOutText, "10ab"⟩ : FargateResourceData).Id
      = sprintfHex (exampleSum readData.container_definitions) :=
  ⟨rfl, by decide,
    (read_id_from_container_definitions readExt readExt exampleSum readData readDataPlain
      _ _ rfl read_run read_run_plain).1,
    (read_id_from_container_definitions readExt readExt exampleSum readData readDataPlain
      _ _ rfl read_run read_run_plain).2⟩

/-! ## Nil results -/

/-- The guarded statements return a nil result exactly with a non-nil error. -/
theorem patchGuarded_nil_iff (ext : Externals) (cfg : Configuration) (opts : patchOptions)
    (stack : cfnStack) (doc : Bytes) (r : Option Bytes × Option GoError)
    (h : patchGuarded ext cfg opts stack doc = .ret r) : r.1 = none ↔ r.2 ≠ none := by
  unfold patchGuarded at h
  cases hpre : ext.terraformPreModifications doc with
  | panic w => simp [hpre] at h
  | ret p =>
    obtain ⟨doc', e⟩ := p
    cases hpatch : ext.Patch cfg doc' with
    | panic w => simp [hpre, hpatch] at h
    | ret p' =>
      obtain ⟨pb, err⟩ := p'
      cases err with
      | some err =>
        simp only [hpre, hpatch, Outcome.ret.injEq] at h
        subst h
        simp
      | none =>
        cases hst : jsonUnmarshalStack ext pb stack with
        | error err =>
          simp only [hpre, hpatch, hst, Outcome.ret.injEq] at h
          subst h
          simp
        | ok st =>
          cases henc : ext.jsonEncode
              (sliceToJson mapToJson (kiltResource st).Properties.ContainerDefinitions) with
          | error err =>
            simp only [hpre, hpatch, hst, henc, Outcome.ret.injEq] at h
            subst h
            simp
          | ok bytes =>
            cases hpost : fargatePostKiltModifications ext bytes opts with
            | panic w => simp [hpre, hpatch, hst, henc, hpost] at h
            | ret p'' =>
              obtain ⟨out, err⟩ := p''
              simp only [hpre, hpatch, hst, henc, hpost, Outcome.ret.injEq] at h
              subst h
              simp

/-- The function `patchFargateTaskDefinition` always returns, and its result is
nil exactly when its error is not. -/
theorem patchFargateTaskDefinition_returns (ext : Externals) (cd : Bytes)
    (cfg : Configuration) (opts : patchOptions) :
    ∃ r, patchFargateTaskDefinition ext cd cfg opts = .ret r ∧ (r.1 = none ↔ r.2 ≠ none) := by
  cases hdec : jsonUnmarshalCdefs ext cd with
  | error err =>
    exact ⟨(none, some err), by simp [patchFargateTaskDefinition, hdec], by simp⟩
  | ok cdefs =>
    cases henc : ext.jsonEncode (assembleStack cdefs opts).toJson with
    | error err =>
      exact ⟨(none, some err), by simp [patchFargateTaskDefinition, hdec, henc], by simp⟩
    | ok doc =>
      cases hg : patchGuarded ext cfg opts (assembleStack cdefs opts) doc with
      | panic v =>
        exact ⟨(none, some (recoveredError v)),
          by simp [patchFargateTaskDefinition, hdec, henc, hg], by simp⟩
      | ret r =>
        exact ⟨r, by simp [patchFargateTaskDefinition, hdec, henc, hg],
          patchGuarded_nil_iff ext cfg opts _ doc r hg⟩

/-- C17.  Whatever the input, the options and the behaviour of the external
code (values, errors or panics), `patchFargateTaskDefinition` returns, with a nil
result exactly when the error is not nil; and
`dataSourceSysdigFargateWorkloadAgentRead` returns as well: its dereference of
the result, reached with a nil error only, is never one of a nil pointer. -/
theorem patch_nil_result_iff_error (ext : Externals) (cd : Bytes) (cfg : Configuration)
    (opts : patchOptions) (Sum256 : Bytes → List UInt8) (d : FargateResourceData) :
    (∃ r, patchFargateTaskDefinition ext cd cfg opts = .ret r ∧ (r.1 = none ↔ r.2 ≠ none)) ∧
    (∃ s, dataSourceSysdigFargateWorkloadAgentRead ext Sum256 d = .ret s) ∧
    dataSourceSysdigFargateWorkloadAgentRead ext Sum256 d ≠ .panic nilDereference := by
  have hread : ∃ s, dataSourceSysdigFargateWorkloadAgentRead ext Sum256 d = .ret s := by
    simp only [dataSourceSysdigFargateWorkloadAgentRead]
    cases hconf : ext.jsonEncode (KiltRecipeConfig.toJson
        ⟨d.sysdig_access_key, d.workload_agent_image, d.orchestrator_host, d.orchestrator_port,
          d.collector_host, d.collector_port, d.sysdig_logging⟩) with
    | error err => exact ⟨_, rfl⟩
    | ok jsonConf =>
      obtain ⟨r, hr, hiff⟩ := patchFargateTaskDefinition_returns ext d.container_definitions
        ⟨agentinoKiltDefinition, d.image_auth_secret, false, true, jsonConf⟩ (newPatchOptions d)
      obtain ⟨out, err⟩ := r
      simp only [hr]
      cases err with
      | some err => cases out <;> exact ⟨_, rfl⟩
      | none =>
        cases out with
        | none => simp at hiff
        | some out => exact ⟨_, rfl⟩
  refine ⟨patchFargateTaskDefinition_returns ext cd cfg opts, hread, ?_⟩
  obtain ⟨s, hs⟩ := hread
  simp [hs]

/-! ## Errors of the post-processing step inside `patchFargateTaskDefinition` -/

/-- The loop applied to a document never yields an error. -/
theorem editDocument_no_error (opts : patchOptions) (j : Json) (e : GoError) :
    editDocument opts j ≠ .ret (.error e) := by
  cases j with
  | arr xs =>
    simp only [editDocument]
    cases hed : editContainers opts xs with
    | panic v => simp
    | ret r =>
      cases r with
      | error e' => exact absurd hed (editContainers_no_error opts xs e')
      | ok ys => simp
  | obj kvs =>
    simp only [editDocument]
    cases hed : editContainers opts (kvs.map Prod.snd) with
    | panic v => simp
    | ret r =>
      cases r with
      | error e' => exact absurd hed (editContainers_no_error opts _ e')
      | ok ys => simp
  | null => simp [editDocument]
  | bool b => simp [editDocument]
  | num n => simp [editDocument]
  | str s => simp [editDocument]

/-- The post-processing step returns an error only when its input does not
parse. -/
theorem fargatePostKiltModifications_error {ext : Externals} {b out : Bytes}
    {opts : patchOptions} {err : GoError}
    (h : fargatePostKiltModifications ext b opts = .ret (out, some err)) :
    ∃ e, ext.jsonDecode b = .error e := by
  unfold fargatePostKiltModifications at h
  split at h
  · simp at h
  · cases hdec : ext.jsonDecode b with
    | error e => exact ⟨e, rfl⟩
    | ok containers =>
      simp only [hdec] at h
      cases hed : editDocument opts containers with
      | panic v => simp [hed] at h
      | ret r =>
        cases r with
        | error e => exact absurd hed (editDocument_no_error opts containers e)
        | ok edited => simp [hed] at h

/-- A table decoder accepts every text that the table encoder writes. -/
theorem tableDecode_of_tableEncode (table : List (Bytes × Json)) (j : Json) (b : Bytes)
    (h : tableEncode table j = .ok b) : ∃ j', tableDecode table b = .ok j' := by
  unfold tableEncode at h
  cases hf : table.find? (fun e => e.2 = j) with
  | none => simp [hf] at h
  | some e =>
    simp only [hf, Except.ok.injEq] at h
    have hmem : e ∈ table := List.mem_of_find?_eq_some hf
    unfold tableDecode
    cases hg : table.find? (fun e' => e'.1 = b) with
    | some e' => exact ⟨e'.2, rfl⟩
    | none =>
      have hnone := List.find?_eq_none.mp hg e hmem
      simp [h] at hnone

/-- C5.  With a text layer whose decoder accepts every text that its encoder
writes, in a run of `patchFargateTaskDefinition` that reaches the post-processing
step: an error returned by the step is returned by `patchFargateTaskDefinition`
with a nil result, because the step returns none there (it fails only when its
input does not parse, and its input was just marshalled); when the step returns
bytes they are the result with a nil error, and when it panics the panic value is
returned as the error with a nil result. -/
theorem post_processing_error_not_swallowed (ext : Externals) (cd : Bytes)
    (cfg : Configuration) (opts : patchOptions) (cdefs : Option (List (Option JObject)))
    (doc doc' pb bytes : Bytes) (e : Option GoError) (st : cfnStack)
    (haccept : ∀ j b, ext.jsonEncode j = .ok b → ∃ j', ext.jsonDecode b = .ok j')
    (hdec : jsonUnmarshalCdefs ext cd = .ok cdefs)
    (henc : ext.jsonEncode (assembleStack cdefs opts).toJson = .ok doc)
    (hpre : ext.terraformPreModifications doc = .ret (doc', e))
    (hpatch : ext.Patch cfg doc' = .ret (pb, none))
    (hst : jsonUnmarshalStack ext pb (assembleStack cdefs opts) = .ok st)
    (hbytes : ext.jsonEncode (sliceToJson mapToJson
      (kiltResource st).Properties.ContainerDefinitions) = .ok bytes) :
    (∀ out err, fargatePostKiltModifications ext bytes opts = .ret (out, some err) →
      patchFargateTaskDefinition ext cd cfg opts = .ret (none, some err)) ∧
    (∀ out err, fargatePostKiltModifications ext bytes opts ≠ .ret (out, some err)) ∧
    (∀ out, fargatePostKiltModifications ext bytes opts = .ret (out, none) →
      patchFargateTaskDefinition ext cd cfg opts = .ret (some out, none)) ∧
    (∀ v, fargatePostKiltModifications ext bytes opts = .panic v →
      patchFargateTaskDefinition ext cd cfg opts = .ret (none, some (recoveredError v))) := by
  have hnever : ∀ out err,
      fargatePostKiltModifications ext bytes opts ≠ .ret (out, some err) := by
    intro out err h
    obtain ⟨e', he'⟩ := fargatePostKiltModifications_error h
    obtain ⟨j', hj'⟩ := haccept _ _ hbytes
    rw [hj'] at he'
    cases he'
  refine ⟨fun out err h => absurd h (hnever out err), hnever, ?_, ?_⟩
  · intro out h
    exact post_processing_error_dropped ext cd cfg opts cdefs doc doc' pb bytes out e st none
      hdec henc hpre hpatch hst hbytes h
  · intro v h
    simp [patchFargateTaskDefinition, patchGuarded, hdec, henc, hpre, hpatch, hst, hbytes, h]

/-- C5, on the `app` example: the text layer accepts what it writes, the step
returns the edited list with a nil error, and that list is the result. -/
theorem post_processing_error_not_swallowed_witness :
    (∀ j b, appExt.jsonEncode j = .ok b → ∃ j', appExt.jsonDecode b = .ok j') ∧
    jsonUnmarshalCdefs appExt appText = .ok (some [some [("Name", .str "app")]]) ∧
    appExt.Patch exampleConfig appStackText = .ret (appStackText, none) ∧
    fargatePostKiltModifications appExt appText appOpts = .ret (appOutText, none) ∧
    patchFargateTaskDefinition appExt appText exampleConfig appOpts
      = .ret (some appOutText, none) :=
  ⟨fun j b h => tableDecode_of_tableEncode _ j b h, by rfl, by rfl, by rfl,
    (post_processing_error_not_swallowed appExt appText exampleConfig appOpts
      (some [some [("Name", .str "app")]]) appStackText appStackText appStackText appText none
      (assembleStack (some [some [("Name", .str "app")]]) appOpts)
      (fun j b h => tableDecode_of_tableEncode _ j b h)
      (by rfl) (by rfl) (by rfl) (by rfl) (by rfl) (by rfl)).2.2.1 appOutText (by rfl)⟩

end Sysdig
